import Mathlib

/-!
Verification of the addrnorm address-normalization pipeline.

This file gives a shallow embedding of the pure row-transformation core of
the repository (src/rules/clean.py, src/rules/normalize.py,
src/rules/validate.py, src/parsers/address_extract.py, src/pipeline.py) and
proves or refutes the frozen claims about it.

Modelling conventions, used throughout:
* Python strings are Lean `String` or `List Char`; `None`-able values are
  `Option String` (Python truthiness: `None` and `""` are falsy).
* Character classes are taken at their ASCII meaning (Python `str.isdigit`,
  `str.isalpha`, `re` classes): all inputs appearing in the claims are ASCII.
* The external `unidecode` transliteration is modelled as the identity
  function (it is the identity on ASCII input).
* The external Unicode NFKC normalizer used by clean_value is passed as an
  explicit function parameter; ASCII input is a fixed point of NFKC, so the
  concrete claims instantiate it with the identity.
* Regular-expression searching and substitution are implemented with the
  exact leftmost-scan, greedy-with-backtracking semantics of Python `re`
  for the concrete patterns appearing in the source.
* External data tables (the geonames city pool, pycountry, the merged rule
  set) are explicit parameters, as the code treats them as read-only data.
-/

/-! ## Python string primitives -/

/-- Python whitespace characters (ASCII range of str.isspace / regex \s). -/
def pyWS (c : Char) : Bool :=
  c == ' ' || c == '\t' || c == '\n' || c == '\r' || c == '\x0b' || c == '\x0c'

/-- Word characters of the regex \w and \b classes (ASCII). -/
def isWordC (c : Char) : Bool := c.isAlphanum || c == '_'

/-- Word-character test lifted to an optional char; out-of-range counts as
non-word, matching how \b treats the string edges. -/
def isWordCO : Option Char → Bool
  | none => false
  | some c => isWordC c

/-- Drop matching characters from the end of a list. -/
def dropEnd (p : Char → Bool) (l : List Char) : List Char :=
  (l.reverse.dropWhile p).reverse

/-- Trim characters matching p from both ends (Python str.strip(chars)). -/
def stripBy (p : Char → Bool) (l : List Char) : List Char :=
  dropEnd p (l.dropWhile p)

/-- Python str.strip() on the character list. -/
def pyStripL (l : List Char) : List Char := stripBy pyWS l

/-- Python str.strip() on strings. -/
def pyStrip (s : String) : String := ⟨pyStripL s.toList⟩

/-- ASCII lower-casing of a character list (Python str.lower on ASCII). -/
def lowerL (l : List Char) : List Char := l.map Char.toLower

/-- ASCII upper-casing of a character list (Python str.upper on ASCII). -/
def upperL (l : List Char) : List Char := l.map Char.toUpper

/-- Python truthiness of an optional string: None and the empty string are falsy. -/
def truthy (o : Option String) : Bool := !(o.getD "" == "")

/-- One-state whitespace-run collapse: the regex substitution
re.sub(r"\s+", " ", s).  The flag records whether we are inside a
whitespace run whose first character was already emitted as ' '. -/
def wsC : Bool → List Char → List Char
  | _, [] => []
  | inRun, c :: r =>
    if pyWS c then
      if inRun then wsC true r else ' ' :: wsC true r
    else c :: wsC false r

/-- Edge-punctuation class of clean.py and normalize.py:
the regex class [\s,;/\-_.]. -/
def cleanEdgeC (c : Char) : Bool :=
  pyWS c || c == ',' || c == ';' || c == '/' || c == '-' || c == '_' || c == '.'

/-- The null-like tokens of clean_value (already lower case). -/
def nullTokens : List String :=
  ["nan", "none", "null", "na", "n/a", "n.a.", "n.a", "n a",
   "-", "—", "not available", "not applicable", "unknown"]

/-- clean.clean_value: base scalar cleaning of the CLEAN stage.  The Unicode
NFKC normalizer (external stdlib capability) is the explicit parameter
nfkc; on ASCII input it is the identity. -/
def clean_value (nfkc : String → String) : Option String → Option String
  | none => none
  | some v =>
    let s := pyStripL v.toList
    if s.isEmpty || nullTokens.contains ⟨lowerL s⟩ then none
    else
      let t1 := wsC false (nfkc ⟨s⟩).toList
      let t2 := stripBy cleanEdgeC t1
      let t3 := pyStripL t2
      if t3.isEmpty then none else some ⟨t3⟩

/-! ## Generic facts about the string primitives -/

theorem dropWhile_idem (p : Char → Bool) (l : List Char) :
    (l.dropWhile p).dropWhile p = l.dropWhile p := by
  induction l with
  | nil => rfl
  | cons c r ih =>
    by_cases h : p c
    · simp [List.dropWhile_cons, h, ih]
    · simp [List.dropWhile_cons, h]

theorem dropWhile_head_not (p : Char → Bool) (l : List Char) :
    ∀ c, (l.dropWhile p).head? = some c → p c = false := by
  induction l with
  | nil => intro c h; simp at h
  | cons a r ih =>
    intro c h
    by_cases ha : p a
    · rw [List.dropWhile_cons_of_pos ha] at h; exact ih c h
    · rw [List.dropWhile_cons_of_neg ha] at h
      simp at h
      rw [← h]
      simpa using ha

theorem dropWhile_of_head_not (p : Char → Bool) (l : List Char)
    (h : ∀ c, l.head? = some c → p c = false) : l.dropWhile p = l := by
  cases l with
  | nil => rfl
  | cons c r =>
    have := h c rfl
    simp [List.dropWhile_cons, this]

theorem dropEnd_idem (p : Char → Bool) (l : List Char) :
    dropEnd p (dropEnd p l) = dropEnd p l := by
  unfold dropEnd
  rw [List.reverse_reverse, dropWhile_idem]

theorem dropEnd_prefix (p : Char → Bool) (l : List Char) :
    ∃ t, l = dropEnd p l ++ t := by
  obtain ⟨s, hs⟩ := @List.dropWhile_suffix _ l.reverse p
  refine ⟨s.reverse, ?_⟩
  unfold dropEnd
  calc l = l.reverse.reverse := by rw [List.reverse_reverse]
  _ = (s ++ l.reverse.dropWhile p).reverse := by rw [hs]
  _ = (l.reverse.dropWhile p).reverse ++ s.reverse := by rw [List.reverse_append]

theorem dropEnd_head? (p : Char → Bool) (l : List Char) :
    dropEnd p l = [] ∨ (dropEnd p l).head? = l.head? := by
  obtain ⟨t, ht⟩ := dropEnd_prefix p l
  cases h : dropEnd p l with
  | nil => left; rfl
  | cons d t2 =>
    right
    rw [h] at ht
    rw [ht]
    simp

theorem stripBy_head_not (p : Char → Bool) (l : List Char) :
    ∀ c, (stripBy p l).head? = some c → p c = false := by
  intro c hc
  unfold stripBy at hc
  rcases dropEnd_head? p (l.dropWhile p) with h | h
  · rw [h] at hc; simp at hc
  · rw [h] at hc
    exact dropWhile_head_not p l c hc

theorem stripBy_last_not (p : Char → Bool) (l : List Char) :
    ∀ c, (stripBy p l).reverse.head? = some c → p c = false := by
  intro c hc
  unfold stripBy dropEnd at hc
  rw [List.reverse_reverse] at hc
  exact dropWhile_head_not p (l.dropWhile p).reverse c hc

theorem stripBy_of_ends_not (q : Char → Bool) (l : List Char)
    (h1 : ∀ c, l.head? = some c → q c = false)
    (h2 : ∀ c, l.reverse.head? = some c → q c = false) :
    stripBy q l = l := by
  unfold stripBy dropEnd
  rw [dropWhile_of_head_not q l h1, dropWhile_of_head_not q l.reverse h2,
    List.reverse_reverse]

theorem stripBy_idem (p : Char → Bool) (l : List Char) :
    stripBy p (stripBy p l) = stripBy p l :=
  stripBy_of_ends_not p (stripBy p l) (stripBy_head_not p l) (stripBy_last_not p l)

theorem stripBy_mono (p q : Char → Bool) (hpq : ∀ c, q c = true → p c = true)
    (l : List Char) : stripBy q (stripBy p l) = stripBy p l := by
  have contra : ∀ c, p c = false → q c = false := by
    intro c hc
    by_cases hq : q c = true
    · rw [hpq c hq] at hc; cases hc
    · simpa using hq
  exact stripBy_of_ends_not q (stripBy p l)
    (fun c h => contra c (stripBy_head_not p l c h))
    (fun c h => contra c (stripBy_last_not p l c h))

theorem wsC_cons_ws_true (c : Char) (r : List Char) (h : pyWS c = true) :
    wsC true (c :: r) = wsC true r := by simp [wsC, h]

theorem wsC_cons_ws_false (c : Char) (r : List Char) (h : pyWS c = true) :
    wsC false (c :: r) = ' ' :: wsC true r := by simp [wsC, h]

theorem wsC_cons_nws (b : Bool) (c : Char) (r : List Char) (h : pyWS c = false) :
    wsC b (c :: r) = c :: wsC false r := by simp [wsC, h]

/-- Composition law of the whitespace collapser state machine. -/
theorem wsC_comp (l : List Char) : ∀ b b2, wsC b2 (wsC b l) = wsC (b || b2) l := by
  induction l with
  | nil => intro b b2; cases b <;> rfl
  | cons c r ih =>
    intro b b2
    cases hc : pyWS c with
    | true =>
      cases b with
      | true =>
        rw [wsC_cons_ws_true c r hc, ih true b2, Bool.true_or,
          wsC_cons_ws_true c r hc]
      | false =>
        rw [wsC_cons_ws_false c r hc, Bool.false_or]
        have hsp : pyWS ' ' = true := by decide
        cases b2 with
        | true =>
          rw [wsC_cons_ws_true ' ' (wsC true r) hsp, ih true true,
            wsC_cons_ws_true c r hc]
          simp
        | false =>
          rw [wsC_cons_ws_false ' ' (wsC true r) hsp, ih true true,
            wsC_cons_ws_false c r hc]
          simp
    | false =>
      rw [wsC_cons_nws b c r hc, wsC_cons_nws b2 c (wsC false r) hc,
        ih false false, wsC_cons_nws (b || b2) c r hc]
      simp

theorem wsC_idem (l : List Char) : wsC false (wsC false l) = wsC false l := by
  simpa using wsC_comp l false false

/-- A character list is in collapsed whitespace form: every whitespace
character is a single space not followed by further whitespace. -/
def collapsedB : List Char → Bool
  | [] => true
  | [c] => !pyWS c || c == ' '
  | c :: d :: r => (!pyWS c || (c == ' ' && !pyWS d)) && collapsedB (d :: r)

theorem collapsedB_tail (c : Char) (r : List Char)
    (h : collapsedB (c :: r) = true) : collapsedB r = true := by
  cases r with
  | nil => rfl
  | cons d t =>
    have h2 : ((!pyWS c || (c == ' ' && !pyWS d)) && collapsedB (d :: t)) = true := h
    simp only [Bool.and_eq_true] at h2
    exact h2.2

theorem wsC_true_head (l : List Char) :
    ∀ c, (wsC true l).head? = some c → pyWS c = false := by
  induction l with
  | nil => intro c h; simp [wsC] at h
  | cons a r ih =>
    intro c h
    cases ha : pyWS a with
    | true =>
      rw [wsC_cons_ws_true a r ha] at h
      exact ih c h
    | false =>
      rw [wsC_cons_nws true a r ha] at h
      simp at h
      rw [← h]
      exact ha

theorem collapsedB_cons (c : Char) (r : List Char)
    (hc : ∀ d, r.head? = some d → (pyWS c = false ∨ (c = ' ' ∧ pyWS d = false)))
    (hc2 : r = [] → (pyWS c = false ∨ c = ' '))
    (hr : collapsedB r = true) : collapsedB (c :: r) = true := by
  cases r with
  | nil =>
    show (!pyWS c || c == ' ') = true
    rcases hc2 rfl with h | h
    · simp [h]
    · simp [h]
  | cons d t =>
    show ((!pyWS c || (c == ' ' && !pyWS d)) && collapsedB (d :: t)) = true
    rw [Bool.and_eq_true]
    refine ⟨?_, hr⟩
    rcases hc d rfl with h | ⟨h1, h2⟩
    · simp [h]
    · simp [h1, h2]

theorem collapsedB_wsC (l : List Char) : ∀ b, collapsedB (wsC b l) = true := by
  induction l with
  | nil => intro b; rfl
  | cons c r ih =>
    intro b
    cases hc : pyWS c with
    | true =>
      cases b with
      | true => rw [wsC_cons_ws_true c r hc]; exact ih true
      | false =>
        rw [wsC_cons_ws_false c r hc]
        refine collapsedB_cons ' ' (wsC true r) ?_ ?_ (ih true)
        · intro d hd
          exact Or.inr ⟨rfl, wsC_true_head r d hd⟩
        · intro _; exact Or.inr rfl
    | false =>
      rw [wsC_cons_nws b c r hc]
      refine collapsedB_cons c (wsC false r) ?_ ?_ (ih false)
      · intro _ _; exact Or.inl hc
      · intro _; exact Or.inl hc

theorem wsC_eq_of_head_nws (l : List Char)
    (h : ∀ c, l.head? = some c → pyWS c = false) : wsC true l = wsC false l := by
  cases l with
  | nil => rfl
  | cons c r =>
    have hc := h c rfl
    rw [wsC_cons_nws true c r hc, wsC_cons_nws false c r hc]

theorem wsC_fix_of_collapsed (l : List Char) (h : collapsedB l = true) :
    wsC false l = l := by
  induction l with
  | nil => rfl
  | cons c r ih =>
    have hr : collapsedB r = true := collapsedB_tail c r h
    cases hc : pyWS c with
    | true =>
      have hcs : c = ' ' := by
        cases r with
        | nil =>
          have : (!pyWS c || c == ' ') = true := h
          simp [hc] at this
          exact this
        | cons d t =>
          have : ((!pyWS c || (c == ' ' && !pyWS d)) && collapsedB (d :: t)) = true := h
          simp [hc] at this
          exact this.1.1
      have hhead : ∀ d, r.head? = some d → pyWS d = false := by
        intro d hd
        cases r with
        | nil => simp at hd
        | cons e t =>
          simp at hd
          have : ((!pyWS c || (c == ' ' && !pyWS e)) && collapsedB (e :: t)) = true := h
          simp [hc] at this
          rw [← hd]
          exact this.1.2
      rw [wsC_cons_ws_false c r hc, hcs, wsC_eq_of_head_nws r hhead, ih hr]
    | false =>
      rw [wsC_cons_nws false c r hc, ih hr]

theorem collapsedB_dropWhile (p : Char → Bool) (l : List Char)
    (h : collapsedB l = true) : collapsedB (l.dropWhile p) = true := by
  induction l with
  | nil => exact h
  | cons c r ih =>
    by_cases hp : p c
    · rw [List.dropWhile_cons_of_pos hp]
      exact ih (collapsedB_tail c r h)
    · rw [List.dropWhile_cons_of_neg hp]
      exact h

theorem collapsedB_append_left (l1 l2 : List Char)
    (h : collapsedB (l1 ++ l2) = true) : collapsedB l1 = true := by
  induction l1 with
  | nil => rfl
  | cons c r ih =>
    cases r with
    | nil =>
      cases l2 with
      | nil => exact h
      | cons d t =>
        have hpair : ((!pyWS c || (c == ' ' && !pyWS d)) && collapsedB (d :: t)) = true := h
        simp only [Bool.and_eq_true, Bool.or_eq_true] at hpair
        show (!pyWS c || c == ' ') = true
        rcases hpair.1 with h1 | h1
        · simp [h1]
        · simp [h1.1]
    | cons d t =>
      have hpair : ((!pyWS c || (c == ' ' && !pyWS d)) && collapsedB ((d :: t) ++ l2)) = true := h
      simp only [Bool.and_eq_true] at hpair
      show ((!pyWS c || (c == ' ' && !pyWS d)) && collapsedB (d :: t)) = true
      rw [Bool.and_eq_true]
      exact ⟨hpair.1, ih hpair.2⟩

theorem collapsedB_dropEnd (p : Char → Bool) (l : List Char)
    (h : collapsedB l = true) : collapsedB (dropEnd p l) = true := by
  obtain ⟨t, ht⟩ := dropEnd_prefix p l
  rw [ht] at h
  exact collapsedB_append_left _ t h

theorem collapsedB_stripBy (p : Char → Bool) (l : List Char)
    (h : collapsedB l = true) : collapsedB (stripBy p l) = true :=
  collapsedB_dropEnd p _ (collapsedB_dropWhile p l h)

theorem toList_mk (l : List Char) : (⟨l⟩ : String).toList = l := rfl

theorem clean_value_some (nfkc : String → String) (v : String) :
    clean_value nfkc (some v) =
      (if (pyStripL v.toList).isEmpty
          || nullTokens.contains ⟨lowerL (pyStripL v.toList)⟩ then none
       else if (pyStripL (stripBy cleanEdgeC
           (wsC false (nfkc ⟨pyStripL v.toList⟩).toList))).isEmpty then none
       else some ⟨pyStripL (stripBy cleanEdgeC
           (wsC false (nfkc ⟨pyStripL v.toList⟩).toList))⟩) := rfl

theorem pyWS_cleanEdge (c : Char) (h : pyWS c = true) : cleanEdgeC c = true := by
  simp [cleanEdgeC, h]

/-- Fixed-point behavior of clean_value on an already-cleaned value (with
the identity normalizer): either the value passes through unchanged or it is
itself a null-like token and the second pass returns absent. -/
theorem clean_value_second (u : List Char)
    (hstrip : pyStripL u = u) (hws : wsC false u = u)
    (hedge : stripBy cleanEdgeC u = u) (hne : u.isEmpty = false) :
    clean_value id (some ⟨u⟩) = some ⟨u⟩ ∨
      (nullTokens.contains ⟨lowerL u⟩ = true ∧ clean_value id (some ⟨u⟩) = none) := by
  rw [clean_value_some id ⟨u⟩]
  simp only [id_eq, toList_mk, hstrip]
  by_cases h3 : nullTokens.contains (⟨lowerL u⟩ : String) = true
  · right
    refine ⟨h3, ?_⟩
    have hcond : (u.isEmpty || nullTokens.contains (⟨lowerL u⟩ : String)) = true := by
      rw [h3]; simp
    rw [if_pos hcond]
  · left
    rw [if_neg, if_neg]
    · rw [hws, hedge, hstrip]
    · rw [hws, hedge, hstrip]
      simpa using hne
    · simp only [Bool.or_eq_true]
      rintro (hx | hx)
      · rw [hne] at hx; cases hx
      · exact h3 hx

/-- C6 (amended).  On inputs whose Unicode NFKC normalization is the identity
(all ASCII inputs; the model instantiates the external normalizer at id),
clean_value is idempotent unless the once-cleaned value is itself a
null-like token, in which case the second application returns absent. -/
theorem clean_value_idem_unless_null (v : Option String) :
    clean_value id (clean_value id v) = clean_value id v ∨
    ∃ s : String, clean_value id v = some s ∧
      nullTokens.contains ⟨lowerL s.toList⟩ = true ∧
      clean_value id (clean_value id v) = none := by
  cases v with
  | none => exact Or.inl rfl
  | some v0 =>
    rw [clean_value_some id v0]
    by_cases h1 : ((pyStripL v0.toList).isEmpty
        || nullTokens.contains ⟨lowerL (pyStripL v0.toList)⟩) = true
    · rw [if_pos h1]; exact Or.inl rfl
    · rw [if_neg h1]
      simp only [id_eq, toList_mk]
      by_cases h2 : (pyStripL (stripBy cleanEdgeC
          (wsC false (pyStripL v0.toList)))).isEmpty = true
      · rw [if_pos h2]; exact Or.inl rfl
      · rw [if_neg h2]
        have hT32 : pyStripL (stripBy cleanEdgeC (wsC false (pyStripL v0.toList)))
            = stripBy cleanEdgeC (wsC false (pyStripL v0.toList)) :=
          stripBy_mono cleanEdgeC pyWS pyWS_cleanEdge _
        have hstrip : pyStripL (pyStripL (stripBy cleanEdgeC
            (wsC false (pyStripL v0.toList))))
            = pyStripL (stripBy cleanEdgeC (wsC false (pyStripL v0.toList))) :=
          stripBy_idem pyWS _
        have hws : wsC false (pyStripL (stripBy cleanEdgeC
            (wsC false (pyStripL v0.toList))))
            = pyStripL (stripBy cleanEdgeC (wsC false (pyStripL v0.toList))) := by
          rw [hT32]
          exact wsC_fix_of_collapsed _
            (collapsedB_stripBy cleanEdgeC _ (collapsedB_wsC _ false))
        have hedge : stripBy cleanEdgeC (pyStripL (stripBy cleanEdgeC
            (wsC false (pyStripL v0.toList))))
            = pyStripL (stripBy cleanEdgeC (wsC false (pyStripL v0.toList))) := by
          rw [hT32]
          exact stripBy_idem cleanEdgeC _
        rcases clean_value_second _ hstrip hws hedge (by simpa using h2)
          with hl | ⟨hn, he⟩
        · exact Or.inl hl
        · refine Or.inr ⟨_, rfl, ?_, he⟩
          rw [toList_mk]
          exact hn

set_option maxHeartbeats 1000000 in
/-- C6 (counterexample).  clean_value is not idempotent: cleaning the
non-null input "nan." strips the trailing dot and yields "nan", which the
second application classifies as a null token and maps to absent. -/
theorem clean_value_not_idempotent :
    clean_value id (some "nan.") = some "nan" ∧
    clean_value id (clean_value id (some "nan.")) = none ∧
    clean_value id (clean_value id (some "nan.")) ≠ clean_value id (some "nan.") := by
  refine ⟨by decide, by decide, by decide⟩

/-! ## Address extraction (src/parsers/address_extract.py) -/

/-- re.split on a character class, splitting at every separator character.
Runs of separators yield empty pieces; the callers strip and filter pieces,
so this agrees with splitting on runs ([,;/]+ etc.) after filtering. -/
def splitSingle (p : Char → Bool) : List Char → List (List Char)
  | [] => [[]]
  | c :: r =>
    match splitSingle p r with
    | t :: ts => if p c then [] :: t :: ts else (c :: t) :: ts
    | [] => [[c]]

/-- The separator class of _RE_COMMON_SEPS: [,;/]. -/
def sepC (c : Char) : Bool := c == ',' || c == ';' || c == '/'

/-- The character class [A-Z0-9 \-] of _RE_POSTCODE (IGNORECASE). -/
def postClsC (c : Char) : Bool := c.isAlphanum || c == ' ' || c == '-'

/-- Generic leftmost regex search: try a match at every position from left to
right, tracking the previous character for word-boundary tests. -/
def reScan (here : Option Char → List Char → Option (List Char)) :
    Option Char → List Char → Option (List Char)
  | _, [] => none
  | prev, c :: r =>
    match here prev (c :: r) with
    | some m => some m
    | none => reScan here (some c) r

/-- One-position match of _RE_POSTCODE = \b[A-Z0-9][A-Z0-9 \-]{2,9}\b
(IGNORECASE): word boundary, an alphanumeric, then greedily 2 to 9 class
characters (backtracking down for the trailing word boundary). -/
def postcodeHere (prev : Option Char) : List Char → Option (List Char)
  | [] => none
  | c :: r =>
    if !isWordCO prev && c.isAlphanum then
      (List.range (min 9 r.length + 1)).reverse.findSome? (fun k =>
        if decide (2 ≤ k) && (r.take k).all postClsC &&
            (isWordCO (r.take k).getLast? != isWordCO (r.get? k)) then
          some (c :: r.take k)
        else none)
    else none

/-- The optional trailing character class [A-Za-z\/\-] of _RE_HOUSENUM. -/
def optHouseCls (c : Char) : Bool := c.isAlpha || c == '/' || c == '-'

/-- One-position match of the group of _RE_HOUSENUM = \b(\d+[A-Za-z\/\-]?)\b:
a maximal digit run, greedily extended by one optional class character,
backtracking on the trailing word boundary. -/
def housenumHere (prev : Option Char) : List Char → Option (List Char)
  | [] => none
  | c :: r =>
    if !isWordCO prev && c.isDigit then
      let run := (c :: r).takeWhile Char.isDigit
      let rest := (c :: r).drop run.length
      match rest with
      | [] => some run
      | d :: rest2 =>
        if optHouseCls d then
          if isWordC d != isWordCO rest2.head? then some (run ++ [d])
          else if !isWordC d then some run
          else none
        else if !isWordC d then some run
        else none
    else none

/-- The label-to-field result of extraction (the parsed dict after the
label_map step of extract_from_address). -/
structure ExtractOut where
  house_number : Option String
  road : Option String
  unit : Option String
  suburb : Option String
  city : Option String
  state : Option String
  zip : Option String
  country : Option String
deriving DecidableEq

/-- The dict produced by _fallback_regex. -/
structure FbRes where
  postcode : Option String
  road : Option String
  city : Option String
  country : Option String
  house_number : Option String
deriving DecidableEq

/-- address_extract._fallback_regex: the deterministic local heuristic.
Splits on [,;/]+, takes the postcode-shaped token of the last matching
segment, the first segment as road, second-to-last as city, last as country
(when at least 3 segments), and the first embedded number as house number. -/
def fallback_regex (address : List Char) : FbRes :=
  let parts := ((splitSingle sepC address).map pyStripL).filter (fun p => !p.isEmpty)
  { postcode := (parts.reverse.findSome? (fun p => reScan postcodeHere none p)).map
      (fun m => (⟨pyStripL m⟩ : String))
    road := (parts.get? 0).map (fun l => (⟨l⟩ : String))
    city := if 2 ≤ parts.length then
        (parts.get? (parts.length - 2)).map (fun l => (⟨l⟩ : String)) else none
    country := if 3 ≤ parts.length then
        parts.getLast?.map (fun l => (⟨l⟩ : String)) else none
    house_number := (reScan housenumHere none address).map (fun m => (⟨m⟩ : String)) }

/-- Python: a parsed value is kept only when truthy, and then stripped. -/
def strv : Option String → Option String
  | none => none
  | some v => if v == "" then none else some (pyStrip v)

/-- address_extract.extract_from_address, modelled with libpostal_url = None.
Per the source, a missing URL and an unreachable or unusable external
service leave parsed empty in exactly the same way, so this is the fallback
path of the claim; the mode argument is unused by the source function.
postcode is mapped to zip by the label map. -/
def extract_from_address (address : String) (mode : String) : ExtractOut :=
  if address == "" then ⟨none, none, none, none, none, none, none, none⟩
  else
    let addr := pyStripL address.toList
    if addr.isEmpty then ⟨none, none, none, none, none, none, none, none⟩
    else
      let parsed := fallback_regex addr
      { house_number := strv parsed.house_number
        road := strv parsed.road
        unit := none
        suburb := none
        city := strv parsed.city
        state := none
        zip := strv parsed.postcode
        country := strv parsed.country }

set_option maxHeartbeats 4000000 in
/-- C1 (counterexample).  With the external service unreachable, the local
heuristic on the Scenario-2 address does NOT yield zip = "10110": the
postcode regex requires no digit, so it matches the trailing country name
"Thailand", which the label map then places into zip. -/
theorem extract_scenario2_zip_refuted :
    (extract_from_address "77/1, Sukhumvit Road, Bangkok, 10110, Thailand"
        "extract-all-to-fill").zip = some "Thailand" ∧
    (extract_from_address "77/1, Sukhumvit Road, Bangkok, 10110, Thailand"
        "extract-all-to-fill").zip ≠ some "10110" := by
  exact ⟨by decide, by decide⟩

set_option maxHeartbeats 4000000 in
/-- C1 (amended).  The fallback heuristic splits on commas, semicolons AND
slashes; it scans segments right to left for the first containing a 3-to-10
character alphanumeric-space-hyphen token (a digit is not required) and maps
that token to zip; the first segment becomes road, the second-to-last city,
the last country, and the first embedded digit run (with an optional
trailing letter, slash or hyphen) the house number.  On the Scenario-2
address this yields road "77", city "10110", country "Thailand",
zip "Thailand" and house number "77/". -/
theorem extract_scenario2_actual :
    extract_from_address "77/1, Sukhumvit Road, Bangkok, 10110, Thailand"
        "extract-all-to-fill" =
      { house_number := some "77/", road := some "77", unit := none,
        suburb := none, city := some "10110", state := none,
        zip := some "Thailand", country := some "Thailand" } := by
  decide

/-! ## Field promotion (src/pipeline.py, _promote_address_like) -/

/-- Number of occurrences of a character (Python str.count for one char). -/
def countChar (c : Char) (l : List Char) : Nat := (l.filter (· == c)).length

/-- Python-style digit search (RE_HAS_DIGIT). -/
def hasDigitL (l : List Char) : Bool := l.any Char.isDigit

/-- The street-keyword alternatives of RE_STREET_WORD, in source order. -/
def streetWords : List String :=
  ["st", "street", "road", "rd", "ave", "avenue", "blvd", "lane", "ln",
   "hwy", "highway", "rue", "soi", "jalan", "jl.", "av", "calle", "via",
   "str", "str."]

/-- Case-insensitive literal match at the head of a list (ASCII). -/
def ciStartsWith : List Char → List Char → Bool
  | [], _ => true
  | _ :: _, [] => false
  | a :: w2, b :: s2 => (a.toLower == b.toLower) && ciStartsWith w2 s2

/-- Does some street keyword match here, with word boundaries on both sides
(RE_STREET_WORD is \b(st|street|...)\b, IGNORECASE)?  Every alternative
starts with a letter, so the left boundary needs a non-word predecessor. -/
def streetWordHere (prev : Option Char) (s : List Char) : Bool :=
  streetWords.any (fun w =>
    ciStartsWith w.toList s && !isWordCO prev &&
      (isWordCO w.toList.getLast? != isWordCO ((s.drop w.toList.length).head?)))

/-- re.search of RE_STREET_WORD: existence of a keyword match anywhere. -/
def streetWordSearch : Option Char → List Char → Bool
  | _, [] => false
  | prev, c :: r => streetWordHere prev (c :: r) || streetWordSearch (some c) r

/-- pipeline.looks_like_addr: at least two commas, or a digit together with
a street-type keyword. -/
def looks_like_addr (s : List Char) : Bool :=
  decide (2 ≤ countChar ',' s) || (hasDigitL s && streetWordSearch none s)

/-- Full match of RE_ZIP_TOKEN = ^[A-Z0-9][A-Z0-9 \-]{2,9}$ (IGNORECASE). -/
def zipTokenFull (l : List Char) : Bool :=
  match l with
  | [] => false
  | c :: r => c.isAlphanum && r.all postClsC && decide (2 ≤ r.length)
      && decide (r.length ≤ 9)

/-- Full match of RE_ZIP_PURE_DIG = ^\d{4,6}$. -/
def zipPureDigFull (l : List Char) : Bool :=
  l.all Char.isDigit && decide (4 ≤ l.length) && decide (l.length ≤ 6)

/-- A row as seen by the realignment stage: the six canonical fields plus
the catch-all address field. -/
structure PRow where
  street : Option String
  district : Option String
  locality : Option String
  region : Option String
  country : Option String
  zip : Option String
  address : Option String
deriving DecidableEq

/-- pipeline._promote_address_like: move a full-address-looking value into
the empty catch-all.  Special case first (locality shaped like a zip and a
street with a comma or digit), then the region, street, district, locality
priority scan. -/
def promote_address_like (row : PRow) : PRow :=
  if truthy row.address then row
  else
    let loc := pyStripL (row.locality.getD "").toList
    let streetS := pyStripL (row.street.getD "").toList
    if !truthy row.address && !streetS.isEmpty &&
        (zipPureDigFull loc || zipTokenFull loc) &&
        (decide (1 ≤ countChar ',' streetS) || hasDigitL streetS) then
      { row with address := some ⟨streetS⟩, street := some "" }
    else if truthy row.region && looks_like_addr (row.region.getD "").toList then
      { row with address := row.region, region := some "" }
    else if truthy row.street && looks_like_addr (row.street.getD "").toList then
      { row with address := row.street, street := some "" }
    else if truthy row.district && looks_like_addr (row.district.getD "").toList then
      { row with address := row.district, district := some "" }
    else if truthy row.locality && looks_like_addr (row.locality.getD "").toList then
      { row with address := row.locality, locality := some "" }
    else row

/-- Comma-separated segments of a value (what the claim counts). -/
def segments (s : List Char) : List (List Char) := splitSingle (· == ',') s

/-- Address-likeness as the amended claim words it: at least three
comma-separated segments (two commas), or digits with a street keyword. -/
def looks_like_addr_spec (s : List Char) : Bool :=
  decide (3 ≤ (segments s).length) || (hasDigitL s && streetWordSearch none s)

/-- Promotion as the amended claim describes it: rows with a non-empty
catch-all unchanged; the locality-zip/street special case first; then the
first field among region, street, district, locality whose value has at
least three comma-separated segments or digits with a street keyword moves
to the catch-all, blanking the source. -/
def promote_spec (row : PRow) : PRow :=
  if truthy row.address then row
  else
    let loc := pyStripL (row.locality.getD "").toList
    let streetS := pyStripL (row.street.getD "").toList
    if !truthy row.address && !streetS.isEmpty &&
        (zipPureDigFull loc || zipTokenFull loc) &&
        (decide (2 ≤ (segments streetS).length) || hasDigitL streetS) then
      { row with address := some ⟨streetS⟩, street := some "" }
    else if truthy row.region && looks_like_addr_spec (row.region.getD "").toList then
      { row with address := row.region, region := some "" }
    else if truthy row.street && looks_like_addr_spec (row.street.getD "").toList then
      { row with address := row.street, street := some "" }
    else if truthy row.district && looks_like_addr_spec (row.district.getD "").toList then
      { row with address := row.district, district := some "" }
    else if truthy row.locality && looks_like_addr_spec (row.locality.getD "").toList then
      { row with address := row.locality, locality := some "" }
    else row

theorem splitSingle_ne_nil (p : Char → Bool) (l : List Char) :
    splitSingle p l ≠ [] := by
  cases l with
  | nil => simp [splitSingle]
  | cons c r =>
    show (match splitSingle p r with
      | t :: ts => if p c then [] :: t :: ts else (c :: t) :: ts
      | [] => [[c]]) ≠ []
    cases splitSingle p r with
    | nil => simp
    | cons t ts =>
      by_cases h : p c
      · simp [h]
      · simp [h]

theorem segments_length (s : List Char) :
    (segments s).length = countChar ',' s + 1 := by
  unfold segments
  induction s with
  | nil => rfl
  | cons c r ih =>
    show (match splitSingle (· == ',') r with
      | t :: ts => if c == ',' then [] :: t :: ts else (c :: t) :: ts
      | [] => [[c]]).length = countChar ',' (c :: r) + 1
    cases hsp : splitSingle (· == ',') r with
    | nil => exact absurd hsp (splitSingle_ne_nil _ r)
    | cons t ts =>
      rw [hsp] at ih
      have ih2 : ts.length + 1 = countChar ',' r + 1 := by simpa using ih
      have hred : (match t :: ts with
          | t :: ts => if (c == ',') = true then [] :: t :: ts else (c :: t) :: ts
          | [] => [[c]]) =
          if (c == ',') = true then [] :: t :: ts else (c :: t) :: ts := rfl
      rw [hred]
      by_cases h : (c == ',') = true
      · have hcnt : countChar ',' (c :: r) = countChar ',' r + 1 := by
          simp [countChar, List.filter_cons, h]
        rw [if_pos h]
        simp only [List.length_cons]
        omega
      · have hcnt : countChar ',' (c :: r) = countChar ',' r := by
          simp [countChar, List.filter_cons, h]
        rw [if_neg h]
        simp only [List.length_cons]
        omega

theorem looks_like_addr_spec_eq (s : List Char) :
    looks_like_addr_spec s = looks_like_addr s := by
  unfold looks_like_addr_spec looks_like_addr
  congr 1
  rw [segments_length]
  exact decide_eq_decide.2 (by omega)

/-- C3 (amended).  Promotion behaves exactly as described once
"at least two comma-separated segments" is corrected to "at least three
segments" (the source tests for two or more commas): non-empty catch-all
rows are unchanged, the locality/street special case fires first, and the
first qualifying field in region, street, district, locality order moves to
the catch-all, with the source field blanked. -/
theorem promote_matches_spec (row : PRow) :
    promote_address_like row = promote_spec row := by
  unfold promote_address_like promote_spec
  rw [looks_like_addr_spec_eq, looks_like_addr_spec_eq,
    looks_like_addr_spec_eq, looks_like_addr_spec_eq]
  have hseg : ∀ l : List Char,
      decide (2 ≤ (segments l).length) = decide (1 ≤ countChar ',' l) := by
    intro l
    rw [segments_length]
    exact decide_eq_decide.2 (by omega)
  simp only [hseg]

/-- C3 (counterexample).  A region holding "Foo, Bar" has two
comma-separated segments, which the claim says qualifies for promotion, but
the code requires two commas and leaves the row unchanged. -/
theorem promote_two_segments_not_promoted :
    (segments "Foo, Bar".toList).length = 2 ∧
    promote_address_like
        ⟨none, none, none, some "Foo, Bar", none, none, none⟩ =
      ⟨none, none, none, some "Foo, Bar", none, none, none⟩ := by
  exact ⟨by decide, by decide⟩

/-! ## Validation (src/rules/validate.py) -/

/-- The external unidecode transliteration, modelled as the identity: it is
the identity on ASCII, which covers every input the claims mention. -/
def unidecode (s : String) : String := s

/-- validate._norm_key: unidecode, strip, lower; empty results become None. -/
def norm_key : Option String → Option String
  | none => none
  | some v =>
    if v == "" then none
    else
      let k : String := ⟨lowerL (pyStripL (unidecode v).toList)⟩
      if k == "" then none else some k

/-- First-match association lookup (Python dict access; caches push new
entries at the front so the latest binding wins, like dict assignment). -/
def alookup {α : Type} (k : String) : List (String × α) → Option α
  | [] => none
  | (k2, v) :: r => if k2 == k then some v else alookup k r

/-- Prefix test: the first list is a prefix of the second
(Python str.startswith). -/
def isPrefOf : List Char → List Char → Bool
  | [], _ => true
  | _ :: _, [] => false
  | a :: a2, b :: b2 => (a == b) && isPrefOf a2 b2

/-- Substring test: the first list occurs in the second (Python in). -/
def isSubOf (a : List Char) : List Char → Bool
  | [] => a.isEmpty
  | c :: r => isPrefOf a (c :: r) || isSubOf a r

/-- Size difference of two lengths (abs(len(cand) - len(name_key))). -/
def natDist (m n : Nat) : Nat := max m n - min m n

/-- The candidate scorer of validate._fuzzy_candidates: exact 100, either
prefix 92, either substring 88, else 85 minus three per length-delta unit
(Nat subtraction saturates at zero exactly like max(0, 85 - dl*3)). -/
def fuzzy_score (cand nameKey : List Char) : Nat :=
  if cand == nameKey then 100
  else if isPrefOf nameKey cand || isPrefOf cand nameKey then 92
  else if isSubOf nameKey cand || isSubOf cand nameKey then 88
  else 85 - natDist cand.length nameKey.length * 3

/-- Stable insertion for descending sort: an element goes before the first
entry of less-or-equal score, so earlier elements precede equal scores
(the semantics of Python list.sort(key=score, reverse=True)). -/
def insortDesc (x : String × Nat) : List (String × Nat) → List (String × Nat)
  | [] => [x]
  | y :: ys => if y.2 ≤ x.2 then x :: y :: ys else y :: insortDesc x ys

/-- Stable descending sort by score. -/
def sortDesc : List (String × Nat) → List (String × Nat)
  | [] => []
  | x :: xs => insortDesc x (sortDesc xs)

/-- The geonames city pool for one country: normalized key to the canonical
record name (the source keeps a city-info dict and reads info["name"]). -/
abbrev Pool := List (String × String)

/-- The two-character prefix index: country code to prefix-bucketed keys. -/
abbrev PrefIdx := List (String × List (String × List String))

/-- The process-lifetime locality-validation cache
(alpha2-or-empty, normalized key) to fixed name; newest entry first. -/
abbrev Cache := List ((String × String) × String)

/-- A compiled country zip pattern: either a matcher standing for
fullmatch of the case-insensitive compiled regex, or a pattern that fails
to compile (the re.error branch).  Patterns that are empty strings are
falsy in the source and behave as absent entries. -/
inductive ZipPat where
  | pat (matcher : String → Bool)
  | malformed

/-- The validator-relevant slice of the job Context. -/
structure VCtx where
  validate : String
  fuzzy_threshold : Nat
  max_fuzzy_candidates : Nat
  zip_patterns : List (String × ZipPat)
  region_lists_by_country : List (String × List String)
  current_alpha2 : Option String

/-- validate._fuzzy_candidates: narrow by the 1-2 character prefix bucket
when a country is known (falling back to all pool keys when the bucket is
missing or empty), score every candidate, keep scores of at least 80, sort
descending (stable) and truncate to top_k. -/
def fuzzy_candidates (nameKey : String) (pool : Pool) (topK : Nat)
    (alpha2 : Option String) (idx : PrefIdx) : List (String × Nat) :=
  if nameKey == "" || List.isEmpty pool then []
  else
    let nk := nameKey.toList
    let pref : String := if 2 ≤ nk.length then ⟨nk.take 2⟩ else ⟨nk.take 1⟩
    let bucket : List String :=
      if truthy alpha2 then
        match alookup (alpha2.getD "") idx with
        | none => []
        | some m => (alookup pref m).getD []
      else []
    let keys := if bucket.isEmpty then List.map Prod.fst pool else bucket
    let cands := keys.filterMap (fun cd =>
      let sc := fuzzy_score cd.toList nk
      if 80 ≤ sc then some (cd, sc) else none)
    (sortDesc cands).take topK

/-- Cache lookup on the (alpha2-or-empty, key) pair. -/
def clookup (k : String × String) : Cache → Option String
  | [] => none
  | (k2, v) :: r => if k2 == k then some v else clookup k r

/-- validate._validate_locality with the module-level caches passed
explicitly: cities is the alpha2-to-pool map, idx the prefix index, cache
the memo table (returned updated).  The error value models the KeyError the
source would raise if a prefix-index key were missing from the pool. -/
def validate_locality (locality : Option String) (alpha2 : Option String)
    (ctx : VCtx) (cities : List (String × Pool)) (idx : PrefIdx)
    (cache : Cache) : Except Unit (Option String × List String × Cache) :=
  if !truthy locality then .ok (none, [], cache)
  else if ctx.validate == "off" then .ok (locality, [], cache)
  else
    let pool : Pool :=
      if truthy alpha2 then (alookup (alpha2.getD "") cities).getD [] else []
    match norm_key locality with
    | none => .ok (none, [], cache)
    | some key =>
      if !List.isEmpty pool && (alookup key pool).isSome then
        .ok (locality, [], cache)
      else
        let cacheKey := (alpha2.getD "", key)
        match clookup cacheKey cache with
        | some cached =>
          .ok (some cached,
            if cached != locality.getD "" then ["locality_fuzzy_fixed"] else [],
            cache)
        | none =>
          let tk := if ctx.max_fuzzy_candidates == 0 then 3
            else ctx.max_fuzzy_candidates
          if ctx.validate == "loose" && !List.isEmpty pool then
            match fuzzy_candidates key pool tk alpha2 idx with
            | (cd, sc) :: _ =>
              if ctx.fuzzy_threshold ≤ sc then
                match alookup cd pool with
                | some fixed =>
                  .ok (some fixed,
                    if fixed != locality.getD "" then ["locality_fuzzy_fixed"]
                    else [],
                    (cacheKey, fixed) :: cache)
                | none => .error ()
              else
                .ok (locality, ["city_not_found"],
                  (cacheKey, locality.getD "") :: cache)
            | [] =>
              .ok (locality, ["city_not_found"],
                (cacheKey, locality.getD "") :: cache)
          else
            .ok (locality, ["city_not_found"],
              (cacheKey, locality.getD "") :: cache)

/-- validate._validate_zip: nothing to check without a zip, a country code
or a configured pattern; otherwise flag bad_zip_format unless the stripped
zip fully matches, or zip_pattern_error for an uncompilable pattern.  The
zip value itself is always returned unchanged. -/
def validate_zip (zipc : Option String) (alpha2 : Option String)
    (zip_patterns : List (String × ZipPat)) : Option String × List String :=
  if !truthy zipc || !truthy alpha2 then (zipc, [])
  else
    match alookup (alpha2.getD "") zip_patterns with
    | none => (zipc, [])
    | some (.pat f) =>
      if f (pyStrip (zipc.getD "")) then (zipc, []) else (zipc, ["bad_zip_format"])
    | some .malformed => (zipc, ["zip_pattern_error"])

/-- De-duplication preserving first occurrence.  The source builds a Python
set whose iteration order is unspecified; the claims proved here do not
depend on the order, and this model fixes first-occurrence order. -/
def dedupKeys (seen : List (Option String)) :
    List (Option String) → List (Option String)
  | [] => []
  | x :: r =>
    if seen.contains x then dedupKeys seen r
    else x :: dedupKeys (x :: seen) r

/-- The best-candidate loop of validate._validate_region: skip falsy keys,
break at 100 on an exact hit, otherwise keep the strictly best of the
92/88/0 scores (the initial best_score of -1 means the first candidate
always replaces the empty best).  Scoring a candidate against a None key
calls str.startswith(None) in the source and raises; modelled as error. -/
def region_best (key : Option String) :
    List (Option String) → Option (String × Nat) →
    Except Unit (Option (String × Nat))
  | [], best => .ok best
  | none :: rest, best => region_best key rest best
  | some cand :: rest, best =>
    if some cand = key then .ok (some (cand, 100))
    else
      match key with
      | none => .error ()
      | some k =>
        let sc := if isPrefOf k.toList cand.toList || isPrefOf cand.toList k.toList
            then 92
          else if isSubOf k.toList cand.toList || isSubOf cand.toList k.toList
            then 88
          else 0
        let best2 := match best with
          | none => some (cand, sc)
          | some (b, bs) => if bs < sc then some (cand, sc) else some (b, bs)
        region_best key rest best2

/-- validate._validate_region: whitelist check with loose fuzzy repair. -/
def validate_region (region : Option String) (alpha2 : Option String)
    (ctx : VCtx) : Except Unit (Option String × List String) :=
  if !truthy region then .ok (none, [])
  else if ctx.validate == "off" then .ok (region, [])
  else
    let whitelist : List String :=
      if truthy alpha2 then
        (alookup (alpha2.getD "") ctx.region_lists_by_country).getD []
      else []
    if whitelist.isEmpty then .ok (region, [])
    else
      let key := norm_key region
      let wlKeys := dedupKeys []
        ((whitelist.filter (fun x => !(x == ""))).map (fun x => norm_key (some x)))
      if wlKeys.contains key then .ok (region, [])
      else if ctx.validate == "loose" then
        match region_best key wlKeys none with
        | .error e => .error e
        | .ok (some (b, bs)) =>
          if ctx.fuzzy_threshold ≤ bs then
            match whitelist.find? (fun orig => norm_key (some orig) == some b) with
            | some orig =>
              .ok (some orig,
                if orig != region.getD "" then ["region_fuzzy_fixed"] else [])
            | none => .ok (region, ["region_not_in_whitelist"])
          else .ok (region, ["region_not_in_whitelist"])
        | .ok none => .ok (region, ["region_not_in_whitelist"])
      else .ok (region, ["region_not_in_whitelist"])

/-- A row of the six canonical fields (normalize output, validate input). -/
structure Row where
  street : Option String
  district : Option String
  locality : Option String
  region : Option String
  country : Option String
  zip : Option String
deriving DecidableEq

/-- validate.validate_fields: zip pattern check, locality check against the
city pool, region whitelist check, then the strict-mode zip clearing. -/
def validate_fields (row : Row) (ctx : VCtx) (cities : List (String × Pool))
    (idx : PrefIdx) (cache : Cache) :
    Except Unit (Row × List String × Cache) :=
  let a2 := ctx.current_alpha2
  let zr := validate_zip row.zip a2 ctx.zip_patterns
  match validate_locality row.locality a2 ctx cities idx cache with
  | .error e => .error e
  | .ok (loc1, f2, cache2) =>
    match validate_region row.region a2 ctx with
    | .error e => .error e
    | .ok (reg1, f3) =>
      let flags := zr.2 ++ f2 ++ f3
      let zip2 := if ctx.validate == "strict" && flags.contains "bad_zip_format"
        then none else zr.1
      .ok ({ street := row.street, district := row.district, locality := loc1,
             region := reg1, country := row.country, zip := zip2 },
           flags, cache2)

instance {e a : Type} [DecidableEq e] [DecidableEq a] : DecidableEq (Except e a) :=
  fun x y =>
    match x, y with
    | .ok v, .ok w =>
      if h : v = w then isTrue (by rw [h]) else isFalse (by intro hc; cases hc; exact h rfl)
    | .error v, .error w =>
      if h : v = w then isTrue (by rw [h]) else isFalse (by intro hc; cases hc; exact h rfl)
    | .ok _, .error _ => isFalse (by intro hc; cases hc)
    | .error _, .ok _ => isFalse (by intro hc; cases hc)

/-- C10.  Validation mutates only zip, locality and region: whenever
validate_fields returns a row, its street, district and country fields are
the input values, for every row, context (any mode), reference data and
cache state. -/
theorem validate_fields_frame (row : Row) (ctx : VCtx)
    (cities : List (String × Pool)) (idx : PrefIdx) (cache : Cache)
    (r2 : Row) (fl : List String) (c2 : Cache)
    (h : validate_fields row ctx cities idx cache = .ok (r2, fl, c2)) :
    r2.street = row.street ∧ r2.district = row.district ∧
      r2.country = row.country := by
  simp only [validate_fields] at h
  cases hl : validate_locality row.locality ctx.current_alpha2 ctx cities idx cache with
  | error e => rw [hl] at h; cases h
  | ok res =>
    obtain ⟨loc1, f2, cache2⟩ := res
    rw [hl] at h
    cases hr : validate_region row.region ctx.current_alpha2 ctx with
    | error e => rw [hr] at h; cases h
    | ok res2 =>
      obtain ⟨reg1, f3⟩ := res2
      rw [hr] at h
      simp only [Except.ok.injEq, Prod.mk.injEq] at h
      obtain ⟨hrow, -, -⟩ := h
      rw [← hrow]
      exact ⟨rfl, rfl, rfl⟩

/-- C10 (witness): the frame property evaluated at a concrete run in mode
off with an empty rule set. -/
theorem validate_fields_frame_witness :
    (⟨some "A St", some "D", some "L", some "R", some "C", some "Z"⟩ : Row).street
        = some "A St" ∧
    ((⟨some "A St", some "D", some "L", some "R", some "C", some "Z"⟩ : Row).street
        = some "A St" ∧
      (⟨some "A St", some "D", some "L", some "R", some "C", some "Z"⟩ : Row).district
        = some "D" ∧
      (⟨some "A St", some "D", some "L", some "R", some "C", some "Z"⟩ : Row).country
        = some "C") := by
  constructor
  · rfl
  · exact validate_fields_frame
      ⟨some "A St", some "D", some "L", some "R", some "C", some "Z"⟩
      ⟨"off", 85, 3, [], [], none⟩ [] [] []
      ⟨some "A St", some "D", some "L", some "R", some "C", some "Z"⟩ [] []
      (by decide)

theorem validate_locality_flags_cases (locality alpha2 : Option String)
    (ctx : VCtx) (cities : List (String × Pool)) (idx : PrefIdx) (cache : Cache)
    (r : Option String) (f : List String) (c2 : Cache)
    (h : validate_locality locality alpha2 ctx cities idx cache = .ok (r, f, c2)) :
    f = [] ∨ f = ["locality_fuzzy_fixed"] ∨ f = ["city_not_found"] := by
  simp only [validate_locality] at h
  repeat' split at h
  all_goals try cases h
  all_goals try decide
  all_goals simp_all

theorem validate_region_flags_cases (region alpha2 : Option String)
    (ctx : VCtx) (r : Option String) (f : List String)
    (h : validate_region region alpha2 ctx = .ok (r, f)) :
    f = [] ∨ f = ["region_fuzzy_fixed"] ∨ f = ["region_not_in_whitelist"] := by
  simp only [validate_region] at h
  repeat' split at h
  all_goals try cases h
  all_goals try decide
  all_goals simp_all

theorem validate_zip_char (z a2v : String) (pats : List (String × ZipPat))
    (f : String → Bool) (hzt : ¬ z = "") (hat : ¬ a2v = "")
    (hp : alookup a2v pats = some (ZipPat.pat f)) :
    validate_zip (some z) (some a2v) pats =
      (some z, if f (pyStrip z) then [] else ["bad_zip_format"]) := by
  simp only [validate_zip, truthy, Option.getD, hp]
  rw [if_neg]
  · split <;> rfl
  · simp [hzt, hat]

/-- C4.  For a row with a non-empty zip and a country whose zip pattern is
configured (and compiles), validate_fields flags bad_zip_format exactly
when the stripped zip fails the case-insensitive fullmatch; strict mode
then clears the zip, while loose mode returns the zip unchanged even when
it is flagged. -/
theorem validate_fields_zip_flag (row : Row) (ctx : VCtx)
    (cities : List (String × Pool)) (idx : PrefIdx) (cache : Cache)
    (a2v z : String) (f : String → Bool)
    (r2 : Row) (fl : List String) (c2 : Cache)
    (hz : row.zip = some z) (hzt : ¬ z = "")
    (ha : ctx.current_alpha2 = some a2v) (hat : ¬ a2v = "")
    (hp : alookup a2v ctx.zip_patterns = some (ZipPat.pat f))
    (h : validate_fields row ctx cities idx cache = .ok (r2, fl, c2)) :
    (("bad_zip_format" ∈ fl) ↔ f (pyStrip z) = false)
    ∧ (ctx.validate = "strict" → f (pyStrip z) = false → r2.zip = none)
    ∧ (ctx.validate = "loose" → r2.zip = some z) := by
  have hzr := validate_zip_char z a2v ctx.zip_patterns f hzt hat hp
  simp only [validate_fields] at h
  rw [ha, hz, hzr] at h
  cases hl : validate_locality row.locality (some a2v) ctx cities idx cache with
  | error e => rw [hl] at h; cases h
  | ok res =>
    obtain ⟨loc1, f2, cache2⟩ := res
    rw [hl] at h
    cases hr : validate_region row.region (some a2v) ctx with
    | error e => rw [hr] at h; cases h
    | ok res2 =>
      obtain ⟨reg1, f3⟩ := res2
      rw [hr] at h
      simp only [Except.ok.injEq, Prod.mk.injEq] at h
      obtain ⟨hrow, hfl, -⟩ := h
      have hf2 := validate_locality_flags_cases row.locality (some a2v) ctx
        cities idx cache loc1 f2 cache2 hl
      have hf3 := validate_region_flags_cases row.region (some a2v) ctx
        reg1 f3 hr
      have hnb2 : ¬ "bad_zip_format" ∈ f2 := by
        rcases hf2 with h2 | h2 | h2 <;> rw [h2] <;> decide
      have hnb3 : ¬ "bad_zip_format" ∈ f3 := by
        rcases hf3 with h3 | h3 | h3 <;> rw [h3] <;> decide
      have hmem : ("bad_zip_format" ∈ fl) ↔ f (pyStrip z) = false := by
        rw [← hfl]
        by_cases hfz : f (pyStrip z) = true
        · rw [if_pos hfz]
          simp only [List.nil_append, List.mem_append]
          constructor
          · rintro (hx | hx)
            · exact absurd hx hnb2
            · exact absurd hx hnb3
          · intro hx
            rw [hfz] at hx
            cases hx
        · rw [if_neg hfz]
          simp only [List.cons_append, List.mem_cons, List.mem_append]
          constructor
          · intro _
            simpa using hfz
          · intro _
            simp
      refine ⟨hmem, ?_, ?_⟩
      · intro hstrict hbad
        have hcontains : fl.contains "bad_zip_format" = true := by
          have : "bad_zip_format" ∈ fl := hmem.2 hbad
          simpa using this
        have hcond : (ctx.validate == "strict" &&
            ((if f (pyStrip z) then [] else ["bad_zip_format"]) ++ f2 ++ f3).contains
              "bad_zip_format") = true := by
          rw [hstrict, hfl]
          simpa using hmem.2 hbad
        rw [← hrow]
        show (if (ctx.validate == "strict" &&
            ((if f (pyStrip z) then [] else ["bad_zip_format"]) ++ f2 ++ f3).contains
              "bad_zip_format") = true then none
          else (some z, if f (pyStrip z) then [] else ["bad_zip_format"]).1) = none
        rw [if_pos hcond]
      · intro hloose
        have hcond : (ctx.validate == "strict" &&
            ((if f (pyStrip z) then [] else ["bad_zip_format"]) ++ f2 ++ f3).contains
              "bad_zip_format") = false := by
          rw [hloose]
          simp
        rw [← hrow]
        show (if (ctx.validate == "strict" &&
            ((if f (pyStrip z) then [] else ["bad_zip_format"]) ++ f2 ++ f3).contains
              "bad_zip_format") = true then none
          else (some z, if f (pyStrip z) then [] else ["bad_zip_format"]).1) = some z
        rw [hcond]
        simp

set_option maxHeartbeats 1000000 in
/-- C4 (witness): Scenario 5 concretely.  zip "PHAYATHAI2" with a numeric
five-digit Thailand pattern fails the fullmatch, is flagged
bad_zip_format, and strict mode clears the zip. -/
theorem validate_fields_zip_flag_witness :
    (("bad_zip_format" ∈ (["bad_zip_format"] : List String)) ↔
        ((fun s : String => s.toList.all Char.isDigit && decide (s.length = 5))
          (pyStrip "PHAYATHAI2") = false)) ∧
    ("strict" = "strict" →
      (fun s : String => s.toList.all Char.isDigit && decide (s.length = 5))
          (pyStrip "PHAYATHAI2") = false →
      (⟨none, none, none, none, some "Thailand", none⟩ : Row).zip = none) ∧
    ("strict" = "loose" →
      (⟨none, none, none, none, some "Thailand", none⟩ : Row).zip
        = some "PHAYATHAI2") := by
  exact validate_fields_zip_flag
    ⟨none, none, none, none, some "Thailand", some "PHAYATHAI2"⟩
    ⟨"strict", 85, 3,
      [("TH", ZipPat.pat
        (fun s => s.toList.all Char.isDigit && decide (s.length = 5)))],
      [], some "TH"⟩
    [] [] [] "TH" "PHAYATHAI2"
    (fun s => s.toList.all Char.isDigit && decide (s.length = 5))
    ⟨none, none, none, none, some "Thailand", none⟩ ["bad_zip_format"] []
    rfl (by decide) rfl (by decide) rfl rfl

theorem mem_insortDesc (x y : String × Nat) (l : List (String × Nat))
    (h : y ∈ insortDesc x l) : y = x ∨ y ∈ l := by
  induction l with
  | nil => simpa [insortDesc] using h
  | cons z zs ih =>
    unfold insortDesc at h
    by_cases hz : z.2 ≤ x.2
    · rw [if_pos hz] at h
      simpa using h
    · rw [if_neg hz] at h
      rcases List.mem_cons.1 h with h2 | h2
      · exact Or.inr (by simp [h2])
      · rcases ih h2 with h3 | h3
        · exact Or.inl h3
        · exact Or.inr (List.mem_cons_of_mem z h3)

theorem mem_sortDesc (y : String × Nat) (l : List (String × Nat))
    (h : y ∈ sortDesc l) : y ∈ l := by
  induction l with
  | nil => simpa [sortDesc] using h
  | cons z zs ih =>
    unfold sortDesc at h
    rcases mem_insortDesc z y (sortDesc zs) h with h2 | h2
    · simp [h2]
    · exact List.mem_cons_of_mem z (ih h2)

theorem fuzzy_candidates_scores (nameKey : String) (pool : Pool) (topK : Nat)
    (alpha2 : Option String) (idx : PrefIdx) (p : String × Nat)
    (h : p ∈ fuzzy_candidates nameKey pool topK alpha2 idx) :
    80 ≤ p.2 ∧ p.2 = fuzzy_score p.1.toList nameKey.toList := by
  unfold fuzzy_candidates at h
  by_cases hcond : (nameKey == "" || List.isEmpty pool) = true
  · rw [if_pos hcond] at h; cases h
  · rw [if_neg hcond] at h
    have h2 := mem_sortDesc p _ (List.mem_of_mem_take h)
    obtain ⟨cd, -, hcd⟩ := List.mem_filterMap.1 h2
    by_cases hsc : 80 ≤ fuzzy_score cd.toList nameKey.toList
    · rw [if_pos hsc] at hcd
      cases hcd
      exact ⟨hsc, rfl⟩
    · rw [if_neg hsc] at hcd
      cases hcd

theorem fuzzy_candidates_mem_pool (nameKey : String) (pool : Pool) (topK : Nat)
    (alpha2 : Option String) (p : String × Nat)
    (h : p ∈ fuzzy_candidates nameKey pool topK alpha2 []) :
    p.1 ∈ List.map Prod.fst pool := by
  unfold fuzzy_candidates at h
  by_cases hcond : (nameKey == "" || List.isEmpty pool) = true
  · rw [if_pos hcond] at h; cases h
  · rw [if_neg hcond] at h
    simp only [alookup, ite_self, List.isEmpty_nil, if_true] at h
    have h2 := mem_sortDesc p _ (List.mem_of_mem_take h)
    obtain ⟨cd, hcdmem, hcd⟩ := List.mem_filterMap.1 h2
    by_cases hsc : 80 ≤ fuzzy_score cd.toList nameKey.toList
    · rw [if_pos hsc] at hcd
      cases hcd
      exact hcdmem
    · rw [if_neg hsc] at hcd
      cases hcd

theorem alookup_isSome_of_mem_fst {α : Type} (a : String)
    (l : List (String × α)) (h : a ∈ List.map Prod.fst l) :
    (alookup a l).isSome = true := by
  induction l with
  | nil => cases h
  | cons x xs ih =>
    rcases List.mem_cons.1 h with h2 | h2
    · unfold alookup
      rw [if_pos (by simp [h2])]
      rfl
    · unfold alookup
      by_cases hx : (x.1 == a) = true
      · obtain ⟨k2, v⟩ := x
        rw [if_pos hx]
        rfl
      · obtain ⟨k2, v⟩ := x
        rw [if_neg hx]
        exact ih h2

/-- Characterization of validate_locality on the loose, exact-miss,
cache-miss path: the outcome is decided entirely by the top fuzzy
candidate against the threshold. -/
theorem validate_locality_loose_spec
    (l a2v k : String) (ctx : VCtx) (pool : Pool) (idx : PrefIdx) (cache : Cache)
    (hmode : ctx.validate = "loose") (hl : ¬ l = "") (ha2 : ¬ a2v = "")
    (hk : norm_key (some l) = some k)
    (hmiss : (alookup k pool).isSome = false)
    (hcachemiss : clookup (a2v, k) cache = none)
    (hpool : pool.isEmpty = false) :
    validate_locality (some l) (some a2v) ctx [(a2v, pool)] idx cache =
      (match fuzzy_candidates k pool
          (if ctx.max_fuzzy_candidates == 0 then 3 else ctx.max_fuzzy_candidates)
          (some a2v) idx with
        | (cd, sc) :: _ =>
          if ctx.fuzzy_threshold ≤ sc then
            match alookup cd pool with
            | some fixed =>
              .ok (some fixed,
                if fixed != l then ["locality_fuzzy_fixed"] else [],
                ((a2v, k), fixed) :: cache)
            | none => .error ()
          else .ok (some l, ["city_not_found"], ((a2v, k), l) :: cache)
        | [] => .ok (some l, ["city_not_found"], ((a2v, k), l) :: cache)) := by
  have h1 : (!truthy (some l)) = false := by simp [truthy, hl]
  have h2 : (ctx.validate == "off") = false := by rw [hmode]; rfl
  have h3 : truthy (some a2v) = true := by simp [truthy, ha2]
  simp only [validate_locality, h1, h2, h3, if_true, if_false,
    Bool.false_eq_true, Option.getD_some, hk, hmiss, Bool.and_false,
    hcachemiss, hmode, hpool]
  have h4b : (alookup a2v [(a2v, pool)]).getD [] = pool := by simp [alookup]
  simp only [h4b]
  have g1 : (("loose" : String) == "off") = false := rfl
  have g2 : (!List.isEmpty pool && (alookup k pool).isSome) = false := by
    rw [hmiss, Bool.and_false]
  have g3 : (("loose" : String) == "loose" && !List.isEmpty pool) = true := by
    rw [hpool]
    rfl
  simp only [g1, g2, g3, Bool.false_eq_true, if_false, if_true]

/-- C2.  The fuzzy matcher scores exactly as specified (100 exact, 92
prefix either way, 88 substring either way, else 85 minus 3 per length
unit floored at 0), keeps only candidates of score at least 80, and in
loose mode on a fresh cache and exact miss the top candidate is accepted,
replacing the locality with the canonical pool name and flagging
locality_fuzzy_fixed, exactly when its score reaches the threshold.  The
pool closure hypothesis hinv holds of every pool _init_caches builds:
each record name is keyed in the pool under its own normalized key. -/
theorem fuzzy_scoring_and_loose_acceptance
    (l a2v k : String) (ctx : VCtx) (pool : Pool)
    (c : String) (sc : Nat) (rest : List (String × Nat))
    (hmode : ctx.validate = "loose") (hl : ¬ l = "") (ha2 : ¬ a2v = "")
    (hk : norm_key (some l) = some k)
    (hmiss : (alookup k pool).isSome = false)
    (hcands : fuzzy_candidates k pool
        (if ctx.max_fuzzy_candidates == 0 then 3 else ctx.max_fuzzy_candidates)
        (some a2v) [] = (c, sc) :: rest)
    (hinv : ∀ ck nm2, alookup ck pool = some nm2 →
        ∃ kn, norm_key (some nm2) = some kn ∧ (alookup kn pool).isSome = true) :
    (∀ cand key : List Char,
      (cand = key → fuzzy_score cand key = 100) ∧
      (cand ≠ key → (isPrefOf key cand || isPrefOf cand key) = true →
        fuzzy_score cand key = 92) ∧
      (cand ≠ key → (isPrefOf key cand || isPrefOf cand key) = false →
        (isSubOf key cand || isSubOf cand key) = true →
        fuzzy_score cand key = 88) ∧
      (cand ≠ key → (isPrefOf key cand || isPrefOf cand key) = false →
        (isSubOf key cand || isSubOf cand key) = false →
        fuzzy_score cand key = 85 - natDist cand.length key.length * 3)) ∧
    (∀ (nk : String) (pool2 : Pool) (tk : Nat) (a2 : Option String)
      (idx2 : PrefIdx) (p : String × Nat),
      p ∈ fuzzy_candidates nk pool2 tk a2 idx2 → 80 ≤ p.2) ∧
    (ctx.fuzzy_threshold ≤ sc →
      ∃ nm, alookup c pool = some nm ∧ ¬ nm = l ∧
        validate_locality (some l) (some a2v) ctx [(a2v, pool)] [] [] =
          .ok (some nm, ["locality_fuzzy_fixed"], [((a2v, k), nm)])) ∧
    (sc < ctx.fuzzy_threshold →
      validate_locality (some l) (some a2v) ctx [(a2v, pool)] [] [] =
        .ok (some l, ["city_not_found"], [((a2v, k), l)])) := by
  have hmem : (c, sc) ∈ fuzzy_candidates k pool
      (if ctx.max_fuzzy_candidates == 0 then 3 else ctx.max_fuzzy_candidates)
      (some a2v) [] := by
    rw [hcands]
    exact List.mem_cons_self _ _
  have hcpool : c ∈ List.map Prod.fst pool :=
    fuzzy_candidates_mem_pool k pool _ (some a2v) (c, sc) hmem
  have hsome := alookup_isSome_of_mem_fst c pool hcpool
  obtain ⟨nm, hnm⟩ : ∃ nm, alookup c pool = some nm := by
    cases hx : alookup c pool with
    | none => rw [hx] at hsome; cases hsome
    | some v => exact ⟨v, rfl⟩
  have hpoolne : List.isEmpty pool = false := by
    cases pool with
    | nil => cases hcpool
    | cons x xs => rfl
  have hspec := validate_locality_loose_spec l a2v k ctx pool [] []
    hmode hl ha2 hk hmiss rfl hpoolne
  rw [hcands] at hspec
  have hnml : ¬ nm = l := by
    obtain ⟨kn, hkn, hknsome⟩ := hinv c nm hnm
    intro hcon
    rw [hcon, hk] at hkn
    injection hkn with hkk
    rw [← hkk] at hknsome
    rw [hknsome] at hmiss
    cases hmiss
  refine ⟨?_, ?_, ?_, ?_⟩
  · intro cand key
    refine ⟨?_, ?_, ?_, ?_⟩
    · intro he
      subst he
      simp [fuzzy_score]
    · intro hne hpref
      unfold fuzzy_score
      rw [if_neg (by simpa using hne), if_pos hpref]
    · intro hne hpf hsub
      unfold fuzzy_score
      rw [if_neg (by simpa using hne), hpf]
      simp only [Bool.false_eq_true, if_false]
      rw [if_pos hsub]
    · intro hne hpf hsub
      unfold fuzzy_score
      rw [if_neg (by simpa using hne), hpf, hsub]
      simp
  · intro nk pool2 tk a2 idx2 p hp
    exact (fuzzy_candidates_scores nk pool2 tk a2 idx2 p hp).1
  · intro hth
    refine ⟨nm, hnm, hnml, ?_⟩
    rw [hspec]
    show (if ctx.fuzzy_threshold ≤ sc then
        match alookup c pool with
        | some fixed => Except.ok (some fixed,
            if (fixed != l) = true then ["locality_fuzzy_fixed"] else [],
            [((a2v, k), fixed)])
        | none => Except.error ()
      else Except.ok (some l, ["city_not_found"], [((a2v, k), l)])) =
      Except.ok (some nm, ["locality_fuzzy_fixed"], [((a2v, k), nm)])
    rw [if_pos hth, hnm]
    have hne : (nm != l) = true := by simp [hnml]
    show Except.ok (some nm,
        if (nm != l) = true then ["locality_fuzzy_fixed"] else [],
        [((a2v, k), nm)]) =
      Except.ok (some nm, ["locality_fuzzy_fixed"], [((a2v, k), nm)])
    rw [hne]
    simp
  · intro hth
    rw [hspec]
    show (if ctx.fuzzy_threshold ≤ sc then
        match alookup c pool with
        | some fixed => Except.ok (some fixed,
            if (fixed != l) = true then ["locality_fuzzy_fixed"] else [],
            [((a2v, k), fixed)])
        | none => Except.error ()
      else Except.ok (some l, ["city_not_found"], [((a2v, k), l)])) =
      Except.ok (some l, ["city_not_found"], [((a2v, k), l)])
    rw [if_neg (by omega)]

set_option maxHeartbeats 1000000 in
/-- C2 (witness): Scenario 4 concretely.  locality "Bangkoh" misses the
pool exactly, the only candidate "bangkok" scores 85 (length delta 0), and
with threshold 85 in loose mode it is accepted, rewriting the locality to
the canonical "Bangkok" with the fuzzy-fixed flag and a cache entry. -/
theorem fuzzy_scoring_and_loose_acceptance_witness :
    ∃ nm, alookup "bangkok" [("bangkok", "Bangkok")] = some nm ∧
      ¬ nm = "Bangkoh" ∧
      validate_locality (some "Bangkoh") (some "TH")
          ⟨"loose", 85, 3, [], [], none⟩
          [("TH", [("bangkok", "Bangkok")])] [] [] =
        .ok (some nm, ["locality_fuzzy_fixed"], [(("TH", "bangkoh"), nm)]) := by
  refine (fuzzy_scoring_and_loose_acceptance "Bangkoh" "TH" "bangkoh"
    ⟨"loose", 85, 3, [], [], none⟩ [("bangkok", "Bangkok")] "bangkok" 85 []
    rfl (by decide) (by decide) (by decide) (by decide) (by decide)
    ?_).2.2.1 (by decide)
  intro ck nm2 h
  by_cases hck : (("bangkok" : String) == ck) = true
  · simp only [alookup, hck, if_true] at h
    injection h with h2
    refine ⟨"bangkok", ?_, ?_⟩
    · rw [← h2]
      decide
    · decide
  · simp only [alookup, hck] at h
    simp at h

def locality_accepted (res : Except Unit (Option String × List String × Cache)) :
    Bool :=
  match res with
  | .ok (_, f, _) => !f.contains "city_not_found"
  | .error _ => false

/-- C7.  Fuzzy acceptance is monotone in the threshold: with a fixed
locality, country and pool (fresh cache), acceptance at a higher threshold
implies acceptance at any lower one, and rejection at a lower threshold
implies rejection at any higher one. -/
theorem fuzzy_threshold_monotone
    (l a2v k : String) (ctx : VCtx) (pool : Pool)
    (c : String) (sc : Nat) (rest : List (String × Nat))
    (hmode : ctx.validate = "loose") (hl : ¬ l = "") (ha2 : ¬ a2v = "")
    (hk : norm_key (some l) = some k)
    (hmiss : (alookup k pool).isSome = false)
    (hcands : fuzzy_candidates k pool
        (if ctx.max_fuzzy_candidates == 0 then 3 else ctx.max_fuzzy_candidates)
        (some a2v) [] = (c, sc) :: rest)
    (t t2 : Nat) (hle : t ≤ t2) :
    (locality_accepted (validate_locality (some l) (some a2v)
        { ctx with fuzzy_threshold := t2 } [(a2v, pool)] [] []) = true →
      locality_accepted (validate_locality (some l) (some a2v)
        { ctx with fuzzy_threshold := t } [(a2v, pool)] [] []) = true) ∧
    (locality_accepted (validate_locality (some l) (some a2v)
        { ctx with fuzzy_threshold := t } [(a2v, pool)] [] []) = false →
      locality_accepted (validate_locality (some l) (some a2v)
        { ctx with fuzzy_threshold := t2 } [(a2v, pool)] [] []) = false) := by
  have hmem : (c, sc) ∈ fuzzy_candidates k pool
      (if ctx.max_fuzzy_candidates == 0 then 3 else ctx.max_fuzzy_candidates)
      (some a2v) [] := by
    rw [hcands]
    exact List.mem_cons_self _ _
  have hcpool : c ∈ List.map Prod.fst pool :=
    fuzzy_candidates_mem_pool k pool _ (some a2v) (c, sc) hmem
  have hsome := alookup_isSome_of_mem_fst c pool hcpool
  obtain ⟨nm, hnm⟩ : ∃ nm, alookup c pool = some nm := by
    cases hx : alookup c pool with
    | none => rw [hx] at hsome; cases hsome
    | some v => exact ⟨v, rfl⟩
  have hpoolne : List.isEmpty pool = false := by
    cases pool with
    | nil => cases hcpool
    | cons x xs => rfl
  have key : ∀ θ : Nat, locality_accepted (validate_locality (some l) (some a2v)
      { ctx with fuzzy_threshold := θ } [(a2v, pool)] [] []) = decide (θ ≤ sc) := by
    intro θ
    have hspec := validate_locality_loose_spec l a2v k
      { ctx with fuzzy_threshold := θ } pool [] []
      (by simpa using hmode) hl ha2 hk hmiss rfl hpoolne
    rw [show ({ ctx with fuzzy_threshold := θ } : VCtx).max_fuzzy_candidates
      = ctx.max_fuzzy_candidates from rfl] at hspec
    rw [hcands] at hspec
    rw [show ({ ctx with fuzzy_threshold := θ } : VCtx).fuzzy_threshold = θ
      from rfl] at hspec
    rw [hspec]
    show locality_accepted (if θ ≤ sc then
        match alookup c pool with
        | some fixed => Except.ok (some fixed,
            if (fixed != l) = true then ["locality_fuzzy_fixed"] else [],
            [((a2v, k), fixed)])
        | none => Except.error ()
      else Except.ok (some l, ["city_not_found"], [((a2v, k), l)]))
      = decide (θ ≤ sc)
    by_cases hth : θ ≤ sc
    · rw [if_pos hth, hnm]
      show locality_accepted (Except.ok (some nm,
          if (nm != l) = true then ["locality_fuzzy_fixed"] else [],
          [((a2v, k), nm)])) = decide (θ ≤ sc)
      rw [show decide (θ ≤ sc) = true by simp [hth]]
      by_cases hne : (nm != l) = true
      · rw [hne]
        rfl
      · rw [show (nm != l) = false by simpa using hne]
        rfl
    · rw [if_neg hth]
      rw [show decide (θ ≤ sc) = false by simp [hth]]
      rfl
  constructor
  · intro h2
    rw [key t2] at h2
    rw [key t]
    simp only [decide_eq_true_eq] at h2 ⊢
    omega
  · intro h2
    rw [key t] at h2
    rw [key t2]
    simp only [decide_eq_false_iff_not] at h2 ⊢
    omega

set_option maxHeartbeats 1000000 in
/-- C7 (witness): with the Scenario-4 data (top score 85), acceptance at
threshold 90 would imply acceptance at 85, and rejection at 85 implies
rejection at 90; evaluated concretely. -/
theorem fuzzy_threshold_monotone_witness :
    (locality_accepted (validate_locality (some "Bangkoh") (some "TH")
        ⟨"loose", 90, 3, [], [], none⟩ [("TH", [("bangkok", "Bangkok")])] [] [])
        = true →
      locality_accepted (validate_locality (some "Bangkoh") (some "TH")
        ⟨"loose", 85, 3, [], [], none⟩ [("TH", [("bangkok", "Bangkok")])] [] [])
        = true) ∧
    (locality_accepted (validate_locality (some "Bangkoh") (some "TH")
        ⟨"loose", 85, 3, [], [], none⟩ [("TH", [("bangkok", "Bangkok")])] [] [])
        = false →
      locality_accepted (validate_locality (some "Bangkoh") (some "TH")
        ⟨"loose", 90, 3, [], [], none⟩ [("TH", [("bangkok", "Bangkok")])] [] [])
        = false) :=
  fuzzy_threshold_monotone "Bangkoh" "TH" "bangkoh"
    ⟨"loose", 0, 3, [], [], none⟩ [("bangkok", "Bangkok")] "bangkok" 85 []
    rfl (by decide) (by decide) (by decide) (by decide) (by decide)
    85 90 (by decide)

/-- C8 (amended).  An unmatched locality (exact miss, no accepted fuzzy
candidate) is returned unchanged and flagged city_not_found on the FIRST
validation of a (country, normalized-input) pair, which also stores it in
the process-lifetime cache; a repeated validation is resolved from the
cache and returns the cached value unchanged but does NOT append the
not-found flag again (a fuzzy-fixed flag is appended only when the cached
value differs from the input). -/
theorem validate_locality_unmatched_cache
    (l a2v k : String) (ctx : VCtx) (pool : Pool) (idx : PrefIdx)
    (hmode : ¬ ctx.validate = "off") (hl : ¬ l = "") (ha2 : ¬ a2v = "")
    (hk : norm_key (some l) = some k)
    (hmiss : (alookup k pool).isSome = false) :
    (∀ cache : Cache, clookup (a2v, k) cache = none →
      (∀ cd sc rest2, ctx.validate = "loose" →
        fuzzy_candidates k pool
          (if ctx.max_fuzzy_candidates == 0 then 3 else ctx.max_fuzzy_candidates)
          (some a2v) idx = (cd, sc) :: rest2 → sc < ctx.fuzzy_threshold) →
      validate_locality (some l) (some a2v) ctx [(a2v, pool)] idx cache =
        .ok (some l, ["city_not_found"], ((a2v, k), l) :: cache)) ∧
    (∀ (cache : Cache) (v : String), clookup (a2v, k) cache = some v →
      validate_locality (some l) (some a2v) ctx [(a2v, pool)] idx cache =
        .ok (some v, if v != l then ["locality_fuzzy_fixed"] else [], cache)) := by
  have h1 : (!truthy (some l)) = false := by simp [truthy, hl]
  have h2 : (ctx.validate == "off") = false := by simp [hmode]
  have h3 : truthy (some a2v) = true := by simp [truthy, ha2]
  have h4b : (alookup a2v [(a2v, pool)]).getD [] = pool := by simp [alookup]
  have gexact : (!List.isEmpty pool && (alookup k pool).isSome) = false := by
    rw [hmiss, Bool.and_false]
  constructor
  · intro cache hcm hreject
    by_cases hgate : (ctx.validate == "loose" && !List.isEmpty pool) = true
    · cases hcand : fuzzy_candidates k pool
          (if ctx.max_fuzzy_candidates == 0 then 3 else ctx.max_fuzzy_candidates)
          (some a2v) idx with
      | nil =>
        have hcand2 : fuzzy_candidates k pool
            (if ctx.max_fuzzy_candidates = 0 then 3 else ctx.max_fuzzy_candidates)
            (some a2v) idx = [] := by simpa using hcand
        simp [validate_locality, h1, h2, h3, hk, h4b, gexact, hcm, hgate, hcand2]
      | cons p rest2 =>
        obtain ⟨cd, sc⟩ := p
        have hsc := hreject cd sc rest2 (by
          have := (Bool.and_eq_true _ _ ▸ hgate).1
          simpa using this) hcand
        have hcand2 : fuzzy_candidates k pool
            (if ctx.max_fuzzy_candidates = 0 then 3 else ctx.max_fuzzy_candidates)
            (some a2v) idx = (cd, sc) :: rest2 := by simpa using hcand
        simp [validate_locality, h1, h2, h3, hk, h4b, gexact, hcm, hgate, hcand2,
          show ¬ ctx.fuzzy_threshold ≤ sc by omega]
    · have hgate2 : (ctx.validate == "loose" && !List.isEmpty pool) = false := by
        simpa using hgate
      simp [validate_locality, h1, h2, h3, hk, h4b, gexact, hcm, hgate2]
  · intro cache v hcv
    simp [validate_locality, h1, h2, h3, hk, h4b, gexact, hcv]

set_option maxHeartbeats 1000000 in
/-- C8 (witness): with an unknown locality "Zzz" and an empty pool, the
first call flags city_not_found and caches the value; the cached repeat
returns the same value with no flag at all. -/
theorem validate_locality_unmatched_cache_witness :
    (validate_locality (some "Zzz") (some "TH")
        ⟨"loose", 85, 3, [], [], none⟩ [("TH", [])] [] [] =
      .ok (some "Zzz", ["city_not_found"], [(("TH", "zzz"), "Zzz")])) ∧
    (validate_locality (some "Zzz") (some "TH")
        ⟨"loose", 85, 3, [], [], none⟩ [("TH", [])] []
        [(("TH", "zzz"), "Zzz")] =
      .ok (some "Zzz",
        if ("Zzz" != "Zzz") = true then ["locality_fuzzy_fixed"] else [],
        [(("TH", "zzz"), "Zzz")])) := by
  have h := validate_locality_unmatched_cache "Zzz" "TH" "zzz"
    ⟨"loose", 85, 3, [], [], none⟩ [] []
    (by decide) (by decide) (by decide) (by decide) (by decide)
  constructor
  · exact h.1 [] (by decide) (by intro cd sc rest2 hm hc; cases hc)
  · exact h.2 [(("TH", "zzz"), "Zzz")] "Zzz" (by decide)

/-- The concrete loose context of the repeated-validation counterexample. -/
def ctxC8 : VCtx :=
  ⟨"loose", 85, 3, [], [], none⟩

set_option maxHeartbeats 1000000 in
/-- C8 (counterexample).  The claim says an unmatched locality is flagged
not-found on EVERY call; in fact only the first call flags it.  The first
validation of "Zzz" (no country, empty pool) returns it unchanged with
city_not_found and caches it; the second call with the resulting cache
returns it unchanged with an EMPTY flag list. -/
theorem validate_locality_cached_repeat_not_flagged :
    validate_locality (some "Zzz") none ctxC8 [] [] [] =
      .ok (some "Zzz", ["city_not_found"], [(("", "zzz"), "Zzz")]) ∧
    validate_locality (some "Zzz") none ctxC8 [] [] [(("", "zzz"), "Zzz")] =
      .ok (some "Zzz", [], [(("", "zzz"), "Zzz")]) := by
  exact ⟨by decide, by decide⟩

/-! ## Normalization (src/rules/normalize.py) -/

/-- normalize._is_empty: falsy, whitespace-only, or a nan/null/none token. -/
def is_empty (s : Option String) : Bool :=
  match s with
  | none => true
  | some v =>
    let st := pyStripL v.toList
    st.isEmpty || [("nan" : String), "null", "none"].contains ⟨lowerL st⟩

/-- _LATIN_RE: an ASCII letter occurs. -/
def isLatinLetter (c : Char) : Bool := c.isAlpha

/-- Python str.split(): whitespace-separated tokens, empties dropped. -/
def wsSplit (l : List Char) : List (List Char) :=
  (splitSingle pyWS l).filter (fun t => !t.isEmpty)

/-- Python str.capitalize: first character upper, the rest lower (ASCII). -/
def capitalizeL : List Char → List Char
  | [] => []
  | c :: r => c.toUpper :: lowerL r

/-- " ".join on token lists. -/
def joinSpace : List (List Char) → List Char
  | [] => []
  | [t] => t
  | t :: ts => t ++ ' ' :: joinSpace ts

/-- normalize._smart_title: identity (stripped) on non-Latin text, else
words longer than two letters are capitalized and short words upper-cased. -/
def smart_title (s : List Char) : List Char :=
  if !(s.any isLatinLetter) then pyStripL s
  else
    pyStripL (joinSpace ((wsSplit s).map (fun p =>
      if 2 < p.length then capitalizeL p else upperL p)))

/-- normalize._cleanup_basic: strip, trim edge punctuation, collapse
whitespace runs. -/
def cleanup_basic (s : List Char) : List Char :=
  wsC false (stripBy cleanEdgeC (pyStripL s))

/-- normalize._apply_alias: look up the stripped lower-cased value. -/
def apply_alias (value : List Char) (aliases : List (String × String)) :
    List Char :=
  match alookup ⟨lowerL (pyStripL value)⟩ aliases with
  | some v => v.toList
  | none => value

/-- Suffix test on character lists (Python str.endswith). -/
def isSuffixOfL (a b : List Char) : Bool := isPrefOf a.reverse b.reverse

/-- normalize._strip_stop_suffixes: lower-case, then chop each configured
suffix in order, trimming trailing commas, spaces and whitespace. -/
def strip_stop_suffixes (country : List Char) (suffixes : List String) :
    List Char :=
  suffixes.foldl (fun s suf =>
    let suf2 := lowerL (pyStripL suf.toList)
    if !suf2.isEmpty && isSuffixOfL suf2 s then
      pyStripL (stripBy (fun c => c == ',' || c == ' ')
        (s.take (s.length - suf2.length)))
    else s) (lowerL (pyStripL country))

/-- A pycountry country record: name is always present, the other
attributes may be missing. -/
structure CountryRec where
  common_name : Option String
  official_name : Option String
  name : String
  alpha_2 : Option String

/-- normalize._pycountry_match_country: the library lookup (an external
black box passed as a function), then a manual scan over the country table
comparing the unidecoded lower-cased common, official and plain names. -/
def pycountry_match_country (name : List Char)
    (lookup2 : String → Option CountryRec) (countries : List CountryRec) :
    Option CountryRec :=
  match lookup2 ⟨name⟩ with
  | some c => some c
  | none =>
    let nameKey := lowerL (unidecode ⟨name⟩).toList
    countries.find? (fun c =>
      [c.common_name, c.official_name, some c.name].any (fun v =>
        match v with
        | some v2 => !(v2 == "") && (lowerL (unidecode v2).toList == nameKey)
        | none => false))

/-- The normalizer-relevant slice of the job Context (profiles_data). -/
structure NCtx where
  stop_country_suffixes : List String
  country_aliases : List (String × String)
  region_aliases : List (String × String)
  region_aliases_by_country : List (String × List (String × String))
  locality_aliases : List (String × String)
  locality_aliases_by_country : List (String × List (String × String))
  district_aliases : List (String × String)
  district_aliases_by_country : List (String × List (String × String))
  drop_emails_phones_from_street : Bool
  drop_unit_attrs : Bool
  drop_non_addressy_single_tokens : Bool
  street_suffix_normalization : List (String × String)
  fix_echo_locality_region : Bool
  countries : List CountryRec
  pylookup : String → Option CountryRec

/-- normalize._normalize_country: cleanup, stop-suffix trim, alias, then
country resolution; unresolved names come back smart-titled with no code. -/
def normalize_country (country : Option String) (ctx : NCtx) :
    Option String × Option String :=
  if is_empty country then (none, none)
  else
    let raw := cleanup_basic (country.getD "").toList
    let trimmed := strip_stop_suffixes raw ctx.stop_country_suffixes
    let aliased := apply_alias trimmed ctx.country_aliases
    match pycountry_match_country aliased ctx.pylookup ctx.countries with
    | some c => (some (c.common_name.getD c.name), c.alpha_2)
    | none => (some ⟨smart_title aliased⟩, none)

/-- normalize._normalize_region. -/
def normalize_region (region : Option String) (alpha2 : Option String)
    (ctx : NCtx) : Option String :=
  if is_empty region then none
  else
    let s := cleanup_basic (region.getD "").toList
    let s := apply_alias s ctx.region_aliases
    let s := if truthy alpha2 then
        apply_alias s ((alookup (alpha2.getD "") ctx.region_aliases_by_country).getD [])
      else s
    let t := smart_title s
    if t.isEmpty then none else some ⟨t⟩

/-- normalize._normalize_locality. -/
def normalize_locality (locality : Option String) (alpha2 : Option String)
    (ctx : NCtx) : Option String :=
  if is_empty locality then none
  else
    let s := cleanup_basic (locality.getD "").toList
    let s := apply_alias s ctx.locality_aliases
    let s := if truthy alpha2 then
        apply_alias s ((alookup (alpha2.getD "") ctx.locality_aliases_by_country).getD [])
      else s
    let t := smart_title s
    if t.isEmpty then none else some ⟨t⟩

/-- normalize._normalize_district. -/
def normalize_district (district : Option String) (alpha2 : Option String)
    (ctx : NCtx) : Option String :=
  if is_empty district then none
  else
    let s := cleanup_basic (district.getD "").toList
    let s := apply_alias s ctx.district_aliases
    let s := if truthy alpha2 then
        apply_alias s ((alookup (alpha2.getD "") ctx.district_aliases_by_country).getD [])
      else s
    let t := smart_title s
    if t.isEmpty then none else some ⟨t⟩

/-- Fueled generic re.sub engine: scan left to right over the original
string, replacing every non-overlapping leftmost match (the matcher
returns the match length at a position, given the previous original
character for word-boundary tests).  Matches are never empty, so one unit
of fuel per character suffices; exhausted fuel returns the rest unchanged
(unreachable with fuel = length). -/
def reSubF (m : Option Char → List Char → Option Nat) (repl : List Char) :
    Nat → Option Char → List Char → List Char
  | 0, _, l => l
  | _ + 1, _, [] => []
  | f + 1, prev, c :: r =>
    match m prev (c :: r) with
    | some (n + 1) =>
      repl ++ reSubF m repl f ((c :: r).take (n + 1)).getLast? ((c :: r).drop (n + 1))
    | _ => c :: reSubF m repl f (some c) r

/-- re.sub over a whole string. -/
def reSub (m : Option Char → List Char → Option Nat) (repl : List Char)
    (l : List Char) : List Char :=
  reSubF m repl l.length none l

/-- Local-part class of _EMAIL_RE ([A-Z0-9._%+-], IGNORECASE). -/
def emailCls1 (c : Char) : Bool :=
  c.isAlphanum || c == '.' || c == '_' || c == '%' || c == '+' || c == '-'

/-- Domain class of _EMAIL_RE ([A-Z0-9.-], IGNORECASE). -/
def emailCls2 (c : Char) : Bool := c.isAlphanum || c == '.' || c == '-'

/-- Match of _EMAIL_RE = [A-Z0-9._%+-]+@[A-Z0-9.-]+\.[A-Z]{2,} at this
position: local-part run, at-sign, then the domain run backtracks to the
last dot followed by at least two letters. -/
def emailHere (prev : Option Char) (s : List Char) : Option Nat :=
  let run1 := s.takeWhile emailCls1
  if run1.isEmpty then none
  else
    match s.drop run1.length with
    | '@' :: s3 =>
      let run2 := s3.takeWhile emailCls2
      (List.range run2.length).reverse.findSome? (fun j =>
        if 1 ≤ j && (run2.get? j == some '.') then
          let a := (s3.drop (j + 1)).takeWhile Char.isAlpha
          if 2 ≤ a.length then some (run1.length + 1 + j + 1 + a.length)
          else none
        else none)
    | _ => none

/-- Body class of _PHONE_RE ([\d \-()]). -/
def phoneCls (c : Char) : Bool :=
  c.isDigit || c == ' ' || c == '-' || c == '(' || c == ')'

/-- Match of _PHONE_RE = \+?\d[\d \-()]{6,}\d at this position; the greedy
body backtracks until the final character is a digit. -/
def phoneHere (prev : Option Char) (s : List Char) : Option Nat :=
  let pl := if s.head? == some '+' then 1 else 0
  match s.drop pl with
  | d :: r =>
    if d.isDigit then
      let run := r.takeWhile phoneCls
      (List.range run.length).reverse.findSome? (fun kk =>
        if 6 ≤ kk && (match run.get? kk with
            | some e => e.isDigit
            | none => false) then
          some (pl + 1 + kk + 1)
        else none)
    else none
  | [] => none

/-- Match of _TAG_RE = #\w+ at this position. -/
def tagHere (prev : Option Char) (s : List Char) : Option Nat :=
  match s with
  | '#' :: r =>
    let run := r.takeWhile isWordC
    if run.isEmpty then none else some (1 + run.length)
  | _ => none

/-- The alternatives of _UNIT_RE, in source order. -/
def unitWords : List String :=
  ["unit", "apt", "apartment", "room", "rm", "bldg", "building", "flr",
   "floor", "tower", "blk", "block", "lvl", "level", "dept", "suite", "ste"]

/-- Match of _UNIT_RE = \b(?:unit|apt|...)\b\.? at this position
(IGNORECASE): keyword with word boundaries, optionally eating one dot. -/
def unitAttrHere (prev : Option Char) (s : List Char) : Option Nat :=
  if isWordCO prev then none
  else
    unitWords.findSome? (fun w =>
      let wl := w.toList
      if ciStartsWith wl s then
        let rest := s.drop wl.length
        if !isWordCO rest.head? then
          some (wl.length + (if rest.head? == some '.' then 1 else 0))
        else none
      else none)

/-- The alternatives of the unit-number pattern, in source order. -/
def unitNumWords : List String :=
  ["fl", "floor", "lvl", "level", "rm", "room", "apt", "suite", "ste",
   "unit", "bldg", "blk", "block"]

/-- Trailing class [A-Z\-\/] (IGNORECASE) of the unit-number pattern. -/
def unitNumTailCls (c : Char) : Bool := c.isAlpha || c == '-' || c == '/'

/-- Match of \b(?:FL|FLOOR|...)\b\.?\s*\d+[A-Z\-\/]* at this position:
keyword with boundaries, optional dot, whitespace, at least one digit,
then a trailing letter-dash-slash run. -/
def unitNumHere (prev : Option Char) (s : List Char) : Option Nat :=
  if isWordCO prev then none
  else
    unitNumWords.findSome? (fun w =>
      let wl := w.toList
      if ciStartsWith wl s then
        let rest := s.drop wl.length
        if !isWordCO rest.head? then
          let d := if rest.head? == some '.' then 1 else 0
          let rest1 := rest.drop d
          let ws := rest1.takeWhile pyWS
          let rest2 := rest1.drop ws.length
          let digits := rest2.takeWhile Char.isDigit
          if digits.isEmpty then none
          else
            some (wl.length + d + ws.length + digits.length +
              ((rest2.drop digits.length).takeWhile unitNumTailCls).length)
        else none
      else none)

/-- Match of _SEP_RE = \s*[,;]\s* at this position. -/
def sepHere (prev : Option Char) (s : List Char) : Option Nat :=
  let ws1 := s.takeWhile pyWS
  match s.drop ws1.length with
  | c :: r =>
    if c == ',' || c == ';' then
      some (ws1.length + 1 + (r.takeWhile pyWS).length)
    else none
  | [] => none

/-- The street-token split class [\s,;./\\-]. -/
def streetTokCls (c : Char) : Bool :=
  pyWS c || c == ',' || c == ';' || c == '.' || c == '/' || c == '\\' || c == '-'

/-- The split class [,\s] of the non-addressy single-token check. -/
def commaWsCls (c : Char) : Bool := c == ',' || pyWS c

/-- re.split on a class, empties dropped. -/
def splitToks (p : Char → Bool) (l : List Char) : List (List Char) :=
  (splitSingle p l).filter (fun t => !t.isEmpty)

/-- Full match of _NON_ADDRESSY = ^[A-Za-z]{2,}$. -/
def nonAddressyFull (l : List Char) : Bool :=
  decide (2 ≤ l.length) && l.all Char.isAlpha

/-- The street-suffix table pass: whitespace tokens whose dot-trimmed lower
form is in the table are replaced, then joined with single spaces. -/
def apply_suffix_map (s : List Char) (m : List (String × String)) : List Char :=
  joinSpace ((wsSplit s).map (fun t =>
    match alookup ⟨stripBy (fun c => c == '.') (lowerL t)⟩ m with
    | some rep => rep.toList
    | none => t))

/-- normalize._normalize_street: digit-and-punctuation-only streets are
cleared; flag-gated email/phone/tag, unit-attribute and single-token
scrubbing; separators normalized; streets with no token of three letters
cleared; suffix table applied to Latin text; smart-titled. -/
def normalize_street (street : Option String) (ctx : NCtx) : Option String :=
  if is_empty street then none
  else
    let s0 := pyStripL (street.getD "").toList
    if !s0.isEmpty && s0.all (fun ch => ch.isDigit || !ch.isAlphanum) then none
    else
      let s1 := if ctx.drop_emails_phones_from_street then
          reSub tagHere [] (reSub phoneHere [] (reSub emailHere [] s0))
        else s0
      let s2 := if ctx.drop_unit_attrs then
          reSub unitNumHere [] (reSub unitAttrHere [] s1)
        else s1
      if ctx.drop_non_addressy_single_tokens &&
          (match splitToks commaWsCls s2 with
           | [t] => nonAddressyFull t && !t.any Char.isDigit
           | _ => false) then none
      else
        let s3 := reSub sepHere (", ".toList) s2
        let s4 := wsC false (stripBy cleanEdgeC s3)
        let toks := splitToks streetTokCls s4
        let hasWord3 := toks.any (fun t => 2 < (t.filter Char.isAlpha).length)
        let hasAnyLetter := s4.any Char.isAlpha
        if !hasWord3 && (hasAnyLetter || !toks.isEmpty) then none
        else
          let s5 := if !ctx.street_suffix_normalization.isEmpty
              && s4.any isLatinLetter
            then apply_suffix_map s4 ctx.street_suffix_normalization else s4
          let t := smart_title s5
          if t.isEmpty then none else some ⟨t⟩

/-- One-position match of _ONLY_DIGITS_ZIP = \b\d{4,6}\b scanned left to
right: a maximal digit run of length four to six with word boundaries. -/
def zipDigitScan (prev : Option Char) : List Char → Option (List Char)
  | [] => none
  | c :: r =>
    if !isWordCO prev && c.isDigit &&
        (let run := (c :: r).takeWhile Char.isDigit
         decide (4 ≤ run.length) && decide (run.length ≤ 6) &&
           !isWordCO ((c :: r).drop run.length).head?) then
      some ((c :: r).takeWhile Char.isDigit)
    else zipDigitScan (some c) r

/-- The token class [A-Z0-9\- ] (IGNORECASE) of _GENERIC_ZIP_TOK. -/
def genericZipCls (c : Char) : Bool := c.isAlphanum || c == '-' || c == ' '

/-- Leftmost match of _GENERIC_ZIP_TOK = (?=.*\d)[A-Z0-9][A-Z0-9\- ]{2,9}$
(IGNORECASE).  Because the pattern is anchored at the end of the string,
a match is a SUFFIX of the value: the longest suffix of length 3 to 10
starting alphanumeric, in the class, containing a digit. -/
def zipGenericScan : List Char → Option (List Char)
  | [] => none
  | c :: r =>
    if c.isAlphanum && r.all genericZipCls && decide (2 ≤ r.length) &&
        decide (r.length ≤ 9) && (c :: r).any Char.isDigit then
      some (c :: r)
    else zipGenericScan r

/-- normalize._normalize_zip: uppercase, the first 4-6 digit token if any,
else the end-anchored generic token; no match clears the field.  The
alpha2 and ctx arguments of the source are unused by its body. -/
def normalize_zip (zipc : Option String) : Option String :=
  if is_empty zipc then none
  else
    let z := upperL (pyStripL (zipc.getD "").toList)
    match (zipDigitScan none z).orElse (fun _ => zipGenericScan z) with
    | none => none
    | some m =>
      let m2 := pyStripL (wsC false (pyStripL m))
      if m2.isEmpty then none else some ⟨m2⟩

/-- The case/diacritic-insensitive comparison key of the echo check:
unidecode, strip, lower. -/
def echo_key (o : Option String) : List Char :=
  lowerL (pyStripL (unidecode (o.getD "")).toList)

/-- normalize.normalize_fields: country first (alpha2 scopes the later
alias lookups), then region, locality, district, street, zip; finally the
flag-gated echo suppression clears region when it equals locality. -/
def normalize_fields (row : Row) (ctx : NCtx) : Row :=
  let cn := normalize_country row.country ctx
  let regionN := normalize_region row.region cn.2 ctx
  let localityN := normalize_locality row.locality cn.2 ctx
  let districtN := normalize_district row.district cn.2 ctx
  let streetN := normalize_street row.street ctx
  let zipN := normalize_zip row.zip
  let regionF :=
    if ctx.fix_echo_locality_region then
      if !(echo_key localityN).isEmpty && !(echo_key regionN).isEmpty &&
          (echo_key localityN == echo_key regionN) then none
      else regionN
    else regionN
  ⟨streetN, districtN, localityN, regionF, cn.1, zipN⟩

/-- Every character kept by takeWhile satisfies the predicate. -/
theorem all_takeWhileB (p : Char → Bool) : ∀ l : List Char,
    (l.takeWhile p).all p = true
  | [] => rfl
  | c :: r => by
    rw [List.takeWhile_cons]
    cases hp : p c with
    | false => simp
    | true => simp [hp, all_takeWhileB p r]

/-- A successful digit-token scan returns an all-digit token of length
four to six. -/
theorem zipDigitScan_props : ∀ (l : List Char) (prev : Option Char)
    (t : List Char), zipDigitScan prev l = some t →
    t.all Char.isDigit = true ∧ 4 ≤ t.length ∧ t.length ≤ 6 := by
  intro l
  induction l with
  | nil => intro prev t h; simp [zipDigitScan] at h
  | cons c r ih =>
    intro prev t h
    rw [zipDigitScan] at h
    split at h
    · rename_i hc
      injection h with h
      subst h
      simp only [Bool.and_eq_true, decide_eq_true_eq] at hc
      obtain ⟨-, ⟨h4, h6⟩, -⟩ := hc
      exact ⟨all_takeWhileB Char.isDigit (c :: r), h4, h6⟩
    · exact ih _ _ h

/-- A successful generic-token scan returns a suffix of the input of
length three to ten containing a digit. -/
theorem zipGenericScan_props : ∀ (l t : List Char),
    zipGenericScan l = some t →
    t <:+ l ∧ 3 ≤ t.length ∧ t.length ≤ 10 ∧ t.any Char.isDigit = true := by
  intro l
  induction l with
  | nil => intro t h; simp [zipGenericScan] at h
  | cons c r ih =>
    intro t h
    rw [zipGenericScan] at h
    split at h
    · rename_i hc
      injection h with h
      subst h
      simp only [Bool.and_eq_true, decide_eq_true_eq] at hc
      refine ⟨List.suffix_refl _, ?_, ?_, hc.2⟩
      · simp only [List.length_cons]; omega
      · simp only [List.length_cons]; omega
    · have hr := ih t h
      exact ⟨hr.1.trans (List.suffix_cons c r), hr.2⟩

/-- Spec-side reading of the generic zip token for comparison: the FIRST
(leftmost) token that starts alphanumeric, extends through the class for
up to nine more characters, reaches length three and contains a digit —
with no anchoring to the end of the string. -/
def firstGenericTokSpec : List Char → Option (List Char)
  | [] => none
  | c :: r =>
    if c.isAlphanum then
      let t := c :: (r.takeWhile genericZipCls).take 9
      if decide (3 ≤ t.length) && t.any Char.isDigit then some t
      else firstGenericTokSpec r
    else firstGenericTokSpec r

/-- A normalize context with every table empty and every street flag off,
with the echo-suppression profile flag ENABLED. -/
def ctxEchoOn : NCtx :=
  ⟨[], [], [], [], [], [], [], [], false, false, false, [], true, [], fun _ => none⟩

/-- The same context with the echo-suppression flag DISABLED — the
source's default, since profiles_data.get uses False as the default. -/
def ctxEchoOff : NCtx :=
  ⟨[], [], [], [], [], [], [], [], false, false, false, [], false, [], fun _ => none⟩

/-- A row whose locality and region normalize to the same name. -/
def rowEcho : Row := ⟨none, none, some "Paris", some "Paris", none, none⟩

/-- C5 (corrected).  The spec states the suppression unconditionally; in
the code it only runs when the fix_echo_locality_region profile flag is
enabled.  Amended claim: for every row and context WITH the flag enabled,
whenever the normalized locality and region have equal non-empty case-
and diacritic-insensitive keys, the final region field is cleared. -/
theorem normalize_fields_echo_suppression (row : Row) (ctx : NCtx)
    (hflag : ctx.fix_echo_locality_region = true)
    (hlk : (echo_key (normalize_locality row.locality
        (normalize_country row.country ctx).2 ctx)).isEmpty = false)
    (heq : echo_key (normalize_locality row.locality
        (normalize_country row.country ctx).2 ctx) =
      echo_key (normalize_region row.region
        (normalize_country row.country ctx).2 ctx)) :
    (normalize_fields row ctx).region = none := by
  have hr : (echo_key (normalize_region row.region
      (normalize_country row.country ctx).2 ctx)).isEmpty = false := by
    rw [← heq]; exact hlk
  simp [normalize_fields, hflag, hlk, hr, heq]

/-- C5 witness: a concrete row with locality = region = "Paris" under the
flag-enabled context has its region cleared. -/
theorem normalize_fields_echo_suppression_witness :
    ctxEchoOn.fix_echo_locality_region = true ∧
    (normalize_fields rowEcho ctxEchoOn).region = none :=
  ⟨by decide,
   normalize_fields_echo_suppression rowEcho ctxEchoOn (by decide) (by decide)
     (by decide)⟩

/-- C5 counterexample to the unconditional reading: under the default
context the flag is off, the normalized locality and region keys are
equal and non-empty, yet the final region keeps its value. -/
theorem normalize_fields_echo_refuted :
    echo_key (normalize_fields rowEcho ctxEchoOff).locality =
      echo_key (normalize_fields rowEcho ctxEchoOff).region ∧
    (echo_key (normalize_fields rowEcho ctxEchoOff).locality).isEmpty = false ∧
    ¬ (normalize_fields rowEcho ctxEchoOff).region = none := by
  refine ⟨by decide, by decide, by decide⟩

/-- C9 (corrected).  The digit path and the clearing behaviour are as the
spec says, and "bangkok 10220" normalizes to "10220"; but the generic
token is NOT the first such token: _GENERIC_ZIP_TOK is anchored with $,
so the fallback match is a SUFFIX of the uppercased value (of length
three to ten, containing a digit).  Amended claim: zip normalization
uppercases the value, returns the first purely-numeric 4-6-digit token
if one exists, else the end-anchored generic token, which is a suffix of
length 3-10 containing a digit; no match clears the field. -/
theorem normalize_zip_amended :
    (∀ (l : List Char) (prev : Option Char) (t : List Char),
        zipDigitScan prev l = some t →
        t.all Char.isDigit = true ∧ 4 ≤ t.length ∧ t.length ≤ 6) ∧
    (∀ (l t : List Char), zipGenericScan l = some t →
        t <:+ l ∧ 3 ≤ t.length ∧ t.length ≤ 10 ∧
          t.any Char.isDigit = true) ∧
    normalize_zip (some "bangkok 10220") = some "10220" ∧
    normalize_zip (some "ADDRESS") = none ∧
    normalize_zip (some "AB1,XYZ9") = some "XYZ9" :=
  ⟨zipDigitScan_props, zipGenericScan_props, by decide, by decide, by decide⟩

/-- C9 witness: the two scan lemmas applied at the concrete values
"10220" (digit path) and "AB1,XYZ9" (suffix path). -/
theorem normalize_zip_amended_witness :
    (("10220".toList.all Char.isDigit = true ∧ 4 ≤ "10220".toList.length ∧
        "10220".toList.length ≤ 6) ∧
      ("XYZ9".toList <:+ "AB1,XYZ9".toList ∧ 3 ≤ "XYZ9".toList.length ∧
        "XYZ9".toList.length ≤ 10 ∧
          "XYZ9".toList.any Char.isDigit = true)) :=
  ⟨normalize_zip_amended.1 "10220".toList none "10220".toList (by decide),
   normalize_zip_amended.2.1 "AB1,XYZ9".toList "XYZ9".toList (by decide)⟩

/-- C9 counterexample to the first-token reading: on "AB1,XYZ9" the
leftmost qualifying token is "AB1", but the code returns the end-anchored
suffix "XYZ9". -/
theorem normalize_zip_not_first_token :
    firstGenericTokSpec (upperL (pyStripL "AB1,XYZ9".toList)) =
      some "AB1".toList ∧
    normalize_zip (some "AB1,XYZ9") = some "XYZ9" ∧
    ¬ ("XYZ9" : String) = "AB1" := by
  refine ⟨by decide, by decide, by decide⟩
